import Mathlib

/-!
# Verification of bamboo's Calculator (src/bamboo/core/calculator.py)

A shallow embedding of the recalculation/propagation engine of the bamboo
repository.  Tables are association-list rows with an explicit column list
(mirroring pandas `DataFrame`s), the dataset store is an explicit association
list from dataset id to mutable dataset state, and the asynchronous task
dispatcher is modelled by recording the dispatched calls in the world state.

External collaborators that are not under `src/` (the `Dataset` store methods,
`BambooFrame` helpers, the `Aggregator`, the mongo reserved-key list) are
modelled from the spec; each such definition carries a doc comment starting
with `Modelled from the spec:`.  Everything else is translated directly from
`src/bamboo/core/calculator.py`.
-/

set_option autoImplicit false

namespace Bamboo

/-- A cell value of a table.  `vNull` stands for pandas' missing value (NaN). -/
inductive Value where
  | vInt : Int → Value
  | vStr : String → Value
  | vNull : Value
deriving DecidableEq, Repr

/-- A table row: a finite map from column slug to value, as an association list
(mirroring a Python dict / a pandas row). -/
abbrev Row := List (String × Value)

/-- A table: an explicit column list plus rows (mirroring a pandas DataFrame). -/
structure DFrame where
  columns : List String
  rows : List Row
deriving DecidableEq, Repr

/-- The column a merged child uses to tag each row with the id of the parent
dataset the row came from. -/
def PARENT_COLUMN : String := "parent_dataset_id"

/-- Modelled from the spec: the reserved storage keys of the document layer
(`bamboo.lib.mongo.MONGO_RESERVED_KEYS` is not under `src/`); the code's only
example of such a key is `_id`. -/
def MONGO_RESERVED_KEYS : List String := ["_id"]

/-- Value of a row at a column; a missing key reads as the missing value,
as in pandas. -/
def rowVal (r : Row) (c : String) : Value := (r.lookup c).getD Value.vNull

/-- Remove every binding of a key from a row (Python `del row[key]`,
total on absent keys). -/
def rowErase (r : Row) (c : String) : Row := r.filter (fun p => p.1 ≠ c)

/-- Python dict assignment `row[k] = v`: overwrite the binding in place when
the key is present, otherwise append it. -/
def rowInsert (r : Row) (k : String) (v : Value) : Row :=
  if (r.lookup k).isSome then r.map (fun p => if p.1 = k then (k, v) else p)
  else r ++ [(k, v)]

/-- A column of a table, read row-wise. -/
def dfCol (df : DFrame) (c : String) : List Value := df.rows.map (fun r => rowVal r c)

/-- Union of two column lists, keeping the left list's order. -/
def dedupCols (a b : List String) : List String :=
  a ++ b.filter (fun c => ¬ a.contains c)

namespace DFrame

/-- Embedding of `pandas.concat([a, b])`: rows appended, columns unioned. -/
def concat (a b : DFrame) : DFrame := ⟨dedupCols a.columns b.columns, a.rows ++ b.rows⟩

/-- Embedding of `dframe.join(column)` for a single named column computed row-wise:
pandas raises when the column name already exists, which the embedding
returns as `none`. -/
def join (df : DFrame) (name : String) (vals : List Value) : Option DFrame :=
  if name ∈ df.columns then none
  else some ⟨df.columns ++ [name],
    (df.rows.zip vals).map (fun p => p.1 ++ [(name, p.2)])⟩

/-- Modelled from the spec: `BambooFrame.add_parent_column` tags every row with
the parent dataset's id (`bamboo.core.frame` is not under `src/`). -/
def addParentColumn (df : DFrame) (pid : String) : DFrame :=
  ⟨dedupCols df.columns [PARENT_COLUMN],
   df.rows.map (fun r => rowErase r PARENT_COLUMN ++ [(PARENT_COLUMN, Value.vStr pid)])⟩

end DFrame

/-- Drop the parent-provenance column (`dframe()` without `keep_parent_ids`). -/
def dropParentIds (df : DFrame) : DFrame :=
  ⟨df.columns.filter (fun c => c ≠ PARENT_COLUMN),
   df.rows.map (fun r => rowErase r PARENT_COLUMN)⟩

/-- A stored calculation: a name and a formula string. -/
structure Calculation where
  name : String
  formula : String
deriving DecidableEq, Repr

/-- One schema column: its slug and its user-facing label. -/
structure SchemaCol where
  slug : String
  label : String
deriving DecidableEq, Repr

/-- Which side of a join this dataset is on, as recorded in
`dataset.joined_datasets`. -/
inductive Direction where
  | left
  | right
deriving DecidableEq, Repr

/-- One entry of `dataset.joined_datasets`:
`(direction, other_dataset, on, joined_dataset)`. -/
structure JoinSpec where
  dir : Direction
  other : String
  onCol : String
  result : String
deriving DecidableEq, Repr

/-- The immutable metadata of a dataset: schema, calculations and the
relationship lists.  The Calculator never mutates these, so they live in a
fixed environment keyed by dataset id. -/
structure DatasetMeta where
  schemaCols : List SchemaCol
  calcs : List Calculation
  merged : List String
  joined : List JoinSpec
  aggregated : List (String × String)
  /-- Modelled from the spec: `schema.convert_type(slug, value)`
  (`bamboo.lib` is not under `src/`), an opaque per-column conversion. -/
  convert : String → Value → Value

/-- The environment: per-dataset metadata and the formula compiler.
The parser (`bamboo.core.parser`, not under `src/`) is, as the spec says,
treated as a pure function from a formula string to an aggregation kind
(or none) and a list of row functions. -/
structure Env where
  meta : String → DatasetMeta
  parse : String → Option String × List (Row → Value)

/-- The mutable state of one dataset in the store. -/
structure DState where
  observations : DFrame
  isReady : Bool
  statsCached : Bool
deriving DecidableEq, Repr

/-- The dataset store: dataset id to mutable dataset state. -/
abbrev Store := List (String × DState)

/-- A recorded asynchronous dispatch of `calculate_updates`
(`call_async` is fire-and-forget; the model logs the call). -/
structure AsyncCall where
  target : String
  payload : List Row
  parent : Option String
deriving DecidableEq, Repr

/-- The world: the store plus the logs of the dispatcher-level effects. -/
structure World where
  store : Store
  asyncCalls : List AsyncCall
  retries : List String
  aggSaves : List (String × String)
deriving DecidableEq, Repr

/-- Point update of one dataset's state in the store. -/
def storeUpdate (st : Store) (id : String) (f : DState → DState) : Store :=
  st.map (fun p => if p.1 = id then (p.1, f p.2) else p)

/-- Embedding of `dataset.replace_observations(table)`: wholesale overwrite of the rows. -/
def replaceObservations (st : Store) (id : String) (df : DFrame) : Store :=
  storeUpdate st id (fun ds => { ds with observations := df })

/-- Embedding of `dataset.clear_summary_stats()`. -/
def clearStats (st : Store) (id : String) : Store :=
  storeUpdate st id (fun ds => { ds with statsCached := false })

/-- Modelled from the spec: `dataset.remove_parent_observations(pid)` deletes
the rows whose parent tag is `pid` (the `Dataset` model is not under `src/`). -/
def removeParentObservations (ds : DState) (pid : String) : DState :=
  { ds with observations :=
      ⟨ds.observations.columns,
       ds.observations.rows.filter (fun r => rowVal r PARENT_COLUMN ≠ Value.vStr pid)⟩ }

/-- Embedding of `remove_parent_observations` lifted to the store. -/
def removeParentObs (st : Store) (id pid : String) : Store :=
  storeUpdate st id (fun ds => removeParentObservations ds pid)

/-- Embedding of `dataset.dframe()`: the current table, parent-provenance column dropped. -/
def dsDFrame (ds : DState) : DFrame := dropParentIds ds.observations

/-- Embedding of `dataset.dframe(keep_parent_ids=True)`. -/
def dsDFrameKeep (ds : DState) : DFrame := ds.observations

/-- Modelled from the spec: `dataset.dframe(padded=True)` pads columns missing
from the table but declared by the schema with default (missing) values. -/
def dsDFramePadded (m : DatasetMeta) (ds : DState) : DFrame :=
  let df := dropParentIds ds.observations
  let missing := (m.schemaCols.map (fun c => c.slug)).filter
    (fun s => ¬ df.columns.contains s)
  ⟨df.columns ++ missing,
   df.rows.map (fun r => r ++ missing.map (fun s => (s, Value.vNull)))⟩

/-- Embedding of `schema.labels_to_slugs` as an association list. -/
def labelsToSlugs (m : DatasetMeta) : List (String × String) :=
  m.schemaCols.map (fun c => (c.label, c.slug))

/-- Embedding of `schema.keys()`: the declared column slugs. -/
def schemaKeys (m : DatasetMeta) : List String := m.schemaCols.map (fun c => c.slug)

/-- The errors `calculate_updates` can raise. -/
inductive CalcError where
  | nonUniqueJoin : String → CalcError
  | notReady : CalcError
  | internal : CalcError
deriving DecidableEq, Repr

/-- pandas `Series.nunique()`: the number of distinct non-missing values. -/
def nunique (vs : List Value) : Nat :=
  ((vs.filter (fun v => v ≠ Value.vNull)).dedup).length

/-- Embedding of `Calculator.make_columns` (calculator.py:191): parse the formula and apply
every compiled row function over the rows of `dframe`, naming each resulting
column `name`. -/
def make_columns (env : Env) (dframe : DFrame) (formula name : String) :
    Option String × List (String × List Value) :=
  let (aggregation, functions) := env.parse formula
  (aggregation, functions.map (fun f => (name, dframe.rows.map f)))

/-- Embedding of `Calculator._check_update_is_valid` (calculator.py:171).  Python 2 list
comprehensions leak their loop variables, so after
`any([direction == 'left' for direction, _, on, __ in joined_datasets])`
the name `on` is bound to the join column of the LAST tuple of
`joined_datasets`, and that is the column the uniqueness check inspects. -/
def check_update_is_valid (env : Env) (d : String) (dframe rawNew : DFrame) :
    Option CalcError :=
  let joined := (env.meta d).joined
  if joined.any (fun j => decide (j.dir = Direction.left)) then
    match joined.getLast? with
    | some j =>
      if j.onCol ∈ rawNew.columns ∧ j.onCol ∈ dframe.columns then
        let mergedJoinColumn := dfCol rawNew j.onCol ++ dfCol dframe j.onCol
        if mergedJoinColumn.length ≠ nunique mergedJoinColumn then
          some (CalcError.nonUniqueJoin j.onCol)
        else none
      else none
    | none => none
  else none

/-- Modelled from the spec: `BambooFrame.recognize_dates_from_schema` infers
date-typed columns against the declared schema (`bamboo.core.frame` is not
under `src/`).  Every schema in this development declares no date-typed
column, for which the normalization is the identity. -/
def recognize_dates_from_schema (df : DFrame) : DFrame := df

/-- Embedding of `Calculator._add_calcs_and_find_aggregations` (calculator.py:219): apply
the FIRST compiled row function (`function[0]`) of each stored calculation to
the new rows, joining the result onto the evolving new-rows table; a
calculation whose name is neither an existing column nor a schema label is
collected as a deferred aggregation.  `none` stands for the Python errors
(`IndexError` on an empty function list, `ValueError` on a column-overlap
join). -/
def add_calcs_and_find_aggregations (env : Env) (selfCols : List String)
    (l2s : List (String × String)) (calcs : List Calculation) (newDF : DFrame) :
    Option (DFrame × List Calculation) :=
  calcs.foldl
    (fun acc c =>
      acc.bind (fun q =>
        match (env.parse c.formula).2 with
        | [] => none
        | f :: _ =>
          let newColVals := q.1.rows.map f
          if c.name ∈ selfCols then
            (q.1.join c.name newColVals).map (fun df2 => (df2, q.2))
          else
            match l2s.lookup c.name with
            | some slug => (q.1.join slug newColVals).map (fun df2 => (df2, q.2))
            | none => some (q.1, q.2 ++ [c])))
    (some (newDF, []))

/-- The result of `labels_to_slugs.get(key)` with Python truthiness: the slug
when it is a non-empty string. -/
def truthySlug (l2s : List (String × String)) (k : String) : Option String :=
  match l2s.lookup k with
  | some s => if s ≠ "" then some s else none
  | none => none

/-- The in-place label-to-slug rewrite `_update_merged_datasets` applies to one
row dict of `new_data` (calculator.py:249): for each key with a truthy slug
that is not reserved, `del row[key]; row[slug] = value`. -/
def slugifyRow (l2s : List (String × String)) (row : Row) : Row :=
  row.foldl
    (fun acc kv =>
      match truthySlug l2s kv.1 with
      | some s =>
        if kv.1 ∉ MONGO_RESERVED_KEYS then rowInsert (rowErase acc kv.1) s kv.2
        else acc
      | none => acc)
    row

/-- One step of the merged-children dispatch loop of
`_update_merged_datasets`. -/
def merged_dispatch_step (d : String) (slugified : List Row) (w : World)
    (m : String) : World :=
  { w with asyncCalls := w.asyncCalls ++ [⟨m, slugified, some d⟩] }

/-- Embedding of `Calculator._update_merged_datasets` (calculator.py:243): rewrite the
caller's rows label-to-slug in place, then dispatch `calculate_updates`
asynchronously to every merged child with this dataset's id as parent. -/
def update_merged_datasets (env : Env) (d : String) (newData : List Row)
    (w : World) : World :=
  let l2s := labelsToSlugs (env.meta d)
  let slugified := newData.map (slugifyRow l2s)
  ((env.meta d).merged).foldl (merged_dispatch_step d slugified) w

/-- Modelled from the spec: `BambooFrame.join_dataset(other, on)`
(`bamboo.core.frame` is not under `src/`), a relational join keyed on `onCol`:
each left row is extended with the first right row sharing its key value. -/
def join_dataset (df : DFrame) (other : DFrame) (onCol : String) : DFrame :=
  ⟨dedupCols df.columns other.columns,
   df.rows.map (fun r =>
     match other.rows.find? (fun r2 => decide (rowVal r2 onCol = rowVal r onCol)) with
     | some r2 => r ++ rowErase r2 onCol
     | none => r)⟩

/-- Embedding of `Calculator._update_joined_datasets` (calculator.py:262): a left-side join
is recomputed and persisted synchronously when the join column appears in the
new rows and its new values intersect the other side's; a right-side join
joins the new rows eagerly when the join column appears in them (and leaves
them as they are otherwise) and dispatches the result asynchronously to the
join-result dataset. -/
def update_joined_one (env : Env) (d : String) (rawNew : DFrame) (w : World)
    (j : JoinSpec) : World :=
  match j.dir with
  | Direction.left =>
    if j.onCol ∈ rawNew.columns then
      match w.store.lookup j.other, w.store.lookup d with
      | some otherDS, some selfDS =>
        let otherDF := dsDFramePadded (env.meta j.other) otherDS
        if (dfCol rawNew j.onCol).any
            (fun v => (dfCol otherDF j.onCol).contains v) then
          { w with store := (replaceObservations w.store j.result
              (join_dataset otherDF (dsDFrame selfDS) j.onCol)) }
        else w
      | _, _ => w
    else w
  | Direction.right =>
    let mergedDF :=
      if j.onCol ∈ rawNew.columns then
        match w.store.lookup j.other with
        | some otherDS => join_dataset rawNew (dsDFrame otherDS) j.onCol
        | none => rawNew
      else rawNew
    { w with asyncCalls := w.asyncCalls ++ [⟨j.result, mergedDF.rows, some d⟩] }

/-- The loop of `_update_joined_datasets` over `dataset.joined_datasets`. -/
def update_joined_datasets (env : Env) (d : String) (rawNew : DFrame)
    (w : World) : World :=
  ((env.meta d).joined).foldl (update_joined_one env d rawNew) w

/-- Embedding of `labels_to_slugs.get(col, col if col in labels_to_slugs.values() else None)`
(calculator.py:313). -/
def pyGetSlug (l2s : List (String × String)) (col : String) : Option String :=
  match l2s.lookup col with
  | some s => some s
  | none => if l2s.any (fun p => decide (p.2 = col)) then some col else none

/-- The per-row filtering of `Calculator.dframe_from_update`
(calculator.py:303-322), building the filtered row dict key by key. -/
def filterRowFromUpdate (m : DatasetMeta) (l2s : List (String × String))
    (columns : List String) (dframeEmpty : Bool) (row : Row) : Row :=
  row.foldl
    (fun acc kv =>
      if kv.1 ∈ MONGO_RESERVED_KEYS then
        if (columns.isEmpty ∨ kv.1 ∈ columns) ∧ (acc.lookup kv.1).isNone then
          acc ++ [kv]
        else acc
      else
        match pyGetSlug l2s kv.1 with
        | some slug =>
          if (slug ≠ "" ∨ (l2s.lookup kv.1).isSome) ∧ (dframeEmpty ∨ slug ∈ columns)
          then rowInsert acc slug (m.convert slug kv.2)
          else acc
        | none => acc)
    []

/-- Columns of a `BambooFrame` built from a list of dicts: the union of the
rows' keys. -/
def rowsColumns (rows : List Row) : List String :=
  rows.foldl (fun acc r => dedupCols acc (r.map Prod.fst)) []

/-- Embedding of `Calculator.dframe_from_update` (calculator.py:289): convert the incoming
rows into a table using the dataset's current schema. -/
def dframe_from_update (env : Env) (d : String) (selfDF : DFrame)
    (newData : List Row) : DFrame :=
  let m := env.meta d
  let l2s := labelsToSlugs m
  let dframeEmpty := selfDF.columns.isEmpty
  let columns := if dframeEmpty then schemaKeys m else selfDF.columns
  let rows := newData.map (filterRowFromUpdate m l2s columns dframeEmpty)
  ⟨rowsColumns rows, rows⟩

/-- Reading of a numeric cell for summation. -/
def valToInt : Value → Int
  | Value.vInt n => n
  | _ => 0

/-- The contribution of the new rows to a `sum` aggregation at group value `v`:
the sum of the computed column over the new rows whose group column is `v`. -/
def sumGroupContribution (g : String) (newRows : List Row) (vals : List Value)
    (v : Value) : Int :=
  (((newRows.zip vals).filter (fun p => decide (rowVal p.1 g = v))).map
    (fun p => valToInt p.2)).sum

/-- The distinct group values occurring in the new rows. -/
def newGroupKeys (g : String) (newRows : List Row) : List Value :=
  (newRows.map (fun r => rowVal r g)).dedup

/-- Modelled from the spec: `Aggregator.update` (`bamboo.core.aggregator` is
not under `src/`) incrementally folds the contribution of the new rows into
the stored aggregation: for a `sum` aggregation each stored group accumulates
the new rows' contribution, and a group present only in the new rows gets a
fresh result row.  The combination rules of the other aggregation kinds are
not exercised by any claim and leave the stored table unchanged. -/
def aggregator_update (g name : String) (existing : DFrame) (newRows : List Row)
    (vals : List Value) : DFrame :=
  let existingKeys := dfCol existing g
  let updatedRows := existing.rows.map (fun r =>
    rowInsert r name (Value.vInt
      (valToInt (rowVal r name) + sumGroupContribution g newRows vals (rowVal r g))))
  let fresh := (newGroupKeys g newRows).filter (fun v => ¬ existingKeys.contains v)
  let freshRows := fresh.map (fun v =>
    [(g, v), (name, Value.vInt (sumGroupContribution g newRows vals v))])
  ⟨dedupCols existing.columns [g, name], updatedRows ++ freshRows⟩

/-- One step of `_update_aggregate_dataset`'s loop over the aggregated
dataset's merged children: remove the child's rows originating from the
aggregated dataset and dispatch the updated aggregation to it. -/
def agg_child_step (aggId : String) (newAggDF : DFrame) (w : World)
    (m : String) : World :=
  { w with
      store := removeParentObs w.store m aggId,
      asyncCalls := w.asyncCalls ++ [⟨m, newAggDF.rows, some aggId⟩] }

/-- Embedding of `Calculator._update_aggregate_dataset` (calculator.py:334): recompute the
new rows' columns for the formula, fold them into the stored aggregation,
persist it, then remove each merged child's rows originating from the
aggregated dataset and dispatch the updated aggregation to it. -/
def update_aggregate_dataset (env : Env) (w : World)
    (formula slugName group aggId : String) (newDF : DFrame) : World :=
  let q := make_columns env newDF formula slugName
  let vals := match q.2 with
    | c :: _ => c.2
    | [] => []
  match w.store.lookup aggId with
  | some aggDS =>
    let newAggDF :=
      if q.1 = some "sum" then
        aggregator_update group slugName aggDS.observations newDF.rows vals
      else aggDS.observations
    let w1 := { w with store := replaceObservations w.store aggId newAggDF }
    ((env.meta aggId).merged).foldl (agg_child_step aggId newAggDF) w1
  | none => w

/-- Embedding of `Calculator._create_calculations_to_groups_and_datasets`
(calculator.py:373): for each aggregated dataset, the deferred calculations
whose name is a label of its schema, as `(formula, slug, group, dataset)`
tuples.  A dict lookup keeps the last formula stored under a name. -/
def create_calcs_to_data (env : Env) (d : String)
    (aggregations : List Calculation) :
    List (String × String × String × String) :=
  ((env.meta d).aggregated).flatMap (fun p =>
    let l2sAgg := labelsToSlugs (env.meta p.2)
    (((l2sAgg.map Prod.fst).dedup).filter
        (fun lbl => aggregations.any (fun c => decide (c.name = lbl)))).map
      (fun lbl =>
        (((aggregations.reverse.find? (fun c => decide (c.name = lbl))).map
            Calculation.formula).getD "",
         (l2sAgg.lookup lbl).getD "", p.1, p.2)))

/-- Embedding of `Calculator._update_aggregate_datasets` (calculator.py:326). -/
def update_aggregate_datasets (env : Env) (d : String)
    (aggregations : List Calculation) (newDF : DFrame) (w : World) : World :=
  (create_calcs_to_data env d aggregations).foldl
    (fun w q => update_aggregate_dataset env w q.1 q.2.1 q.2.2.1 q.2.2.2 newDF)
    w

/-- Embedding of `Calculator.calculate_updates` (calculator.py:120): the asynchronous unit
of work updating a dataset with new rows.  The returned world carries every
effect performed before a failure; a `some` error is the raised exception. -/
def calculate_updates (env : Env) (d : String) (newData : List Row)
    (newDFrameRaw : Option DFrame) (parentId : Option String) (w : World) :
    World × Option CalcError :=
  match w.store.lookup d with
  | none => (w, some CalcError.internal)
  | some ds =>
    let dframe := dsDFrame ds
    if ds.isReady = false then
      ({ w with retries := w.retries ++ [d] }, some CalcError.notReady)
    else
      let m := env.meta d
      let l2s := labelsToSlugs m
      let rawNew := newDFrameRaw.getD (dframe_from_update env d dframe newData)
      match check_update_is_valid env d dframe rawNew with
      | some e => (w, some e)
      | none =>
        let newDF0 := recognize_dates_from_schema rawNew
        match add_calcs_and_find_aggregations env dframe.columns l2s m.calcs newDF0 with
        | none => (w, some CalcError.internal)
        | some q =>
          let newDF2 := match parentId with
            | some pid => DFrame.addParentColumn q.1 pid
            | none => q.1
          let existing := dsDFrameKeep ds
          let updated := DFrame.concat existing newDF2
          let w1 := { w with store := clearStats (replaceObservations w.store d updated) d }
          let w2 := update_aggregate_datasets env d q.2 newDF2 w1
          let w3 := update_merged_datasets env d newData w2
          let w4 := update_joined_datasets env d rawNew w3
          (w4, none)

/-- Embedding of `Calculator.propagate_column` (calculator.py:89), with explicit fuel for
the recursion into merged children (the source assumes the merge graph is a
DAG); `none` is nontermination or a missing dataset. -/
def propagate_column (env : Env) : Nat → Store → String → String → Option Store
  | 0, _, _, _ => none
  | fuel + 1, st, parentId, childId =>
    let st1 := removeParentObs st childId parentId
    match st1.lookup childId, st1.lookup parentId with
    | some child1, some parent1 =>
      let updated := DFrame.concat (dsDFrameKeep child1)
        (DFrame.addParentColumn (dsDFrame parent1) parentId)
      let st3 := clearStats (replaceObservations st1 childId updated) childId
      ((env.meta childId).merged).foldl
        (fun acc mid => acc.bind (fun s => propagate_column env fuel s childId mid))
        (some st3)
    | _, _ => none

/-- Embedding of `Calculator.calculate_column` (calculator.py:51): apply the formula over
the entire current table; an aggregation delegates to `Aggregator.save`
(modelled from the spec as a recorded effect, since `bamboo.core.aggregator`
is not under `src/`), a row-wise formula joins the first resulting column and
persists; then the new column is propagated into every merged child. -/
def calculate_column (env : Env) (fuel : Nat) (d : String)
    (formula name : String) (groupStr : Option String) (w : World) :
    Option World :=
  match w.store.lookup d with
  | none => none
  | some ds =>
    let dframe := dsDFrame ds
    let q := make_columns env dframe formula name
    let w1opt : Option World :=
      match q.1 with
      | some _ => some { w with aggSaves := w.aggSaves ++ [(name, groupStr.getD "")] }
      | none =>
        match q.2 with
        | [] => none
        | c :: _ =>
          (dframe.join c.1 c.2).map (fun joined =>
            { w with store := replaceObservations w.store d joined })
    w1opt.bind (fun w1 =>
      (((env.meta d).merged).foldl
        (fun acc mid => acc.bind (fun s => propagate_column env fuel s d mid))
        (some w1.store)).map (fun st => { w1 with store := st }))


/-! ## Concrete instances used by the claims -/

/-- The row function of the `sum(a)` formula in the aggregation scenario. -/
def sumFn : Row → Value := fun r => rowVal r "a"

/-- The dataset of the aggregation scenario: columns `g` and `a`, one stored
`sum`-aggregation calculation named `total`, one aggregated dataset grouped
by `g`. -/
def metaD6 : DatasetMeta :=
  ⟨[⟨"g", "g"⟩, ⟨"a", "a"⟩], [⟨"total", "sumform"⟩], [], [], [("g", "agg")], fun _ v => v⟩

/-- The aggregated dataset of the aggregation scenario. -/
def metaAgg6 : DatasetMeta :=
  ⟨[⟨"g", "g"⟩, ⟨"total", "total"⟩], [], [], [], [], fun _ v => v⟩

/-- The environment of the aggregation scenario; the formula `sumform`
compiles to a `sum` aggregation of column `a`. -/
def envC6 : Env :=
  ⟨fun i => if i = "agg" then metaAgg6 else metaD6,
   fun f => if f = "sumform" then (some "sum", [sumFn]) else (none, [])⟩

/-- A table over columns `g` and `a` holding the given rows. -/
def rawOf (R : List Row) : DFrame := ⟨["g", "a"], R⟩

/-- The initial world of the aggregation scenario: both datasets empty. -/
def worldC6 : World :=
  ⟨[("d", ⟨⟨[], []⟩, true, false⟩), ("agg", ⟨⟨[], []⟩, true, false⟩)], [], [], []⟩

/-- The aggregate value stored for group value `v`: the `nm` cell of the row of
the aggregated dataset whose group column `g` is `v`. -/
def storedAggValue (w : World) (aggId g nm : String) (v : Value) : Option Value :=
  (w.store.lookup aggId).bind (fun ds =>
    (ds.observations.rows.find? (fun r => decide (rowVal r g = v))).map
      (fun r => rowVal r nm))


/-- A dataset metadata with nothing attached. -/
def emptyMeta : DatasetMeta := ⟨[], [], [], [], [], fun _ v => v⟩

/-- An environment with no relationships and a parser that knows no formula. -/
def envTriv : Env := ⟨fun _ => emptyMeta, fun _ => (none, [])⟩

/-- The new-rows table as persisted by a successful `calculate_updates` call:
the incoming rows filtered by the schema (unless a prebuilt table was given),
with the stored calculations' first row functions joined on and the parent tag
added when a parent id was supplied. -/
def processedNewDF (env : Env) (d : String) (ds : DState) (newData : List Row)
    (raw : Option DFrame) (pid : Option String) : DFrame :=
  let dframe := dsDFrame ds
  let rawNew := raw.getD (dframe_from_update env d dframe newData)
  let newDF0 := recognize_dates_from_schema rawNew
  match add_calcs_and_find_aggregations env dframe.columns (labelsToSlugs (env.meta d))
      (env.meta d).calcs newDF0 with
  | some q =>
    match pid with
    | some p => DFrame.addParentColumn q.1 p
    | none => q.1
  | none => ⟨[], []⟩

/-- An environment whose formula `add` compiles to the constant row function 7. -/
def envC3 : Env := ⟨fun _ => emptyMeta,
  fun s => if s = "add" then (none, [fun _ => Value.vInt 7]) else (none, [])⟩

/-- A one-row dataset over column `a`. -/
def dsC3 : DState := ⟨⟨["a"], [[("a", Value.vInt 1)]]⟩, true, false⟩

def worldC3 : World := ⟨[("d", dsC3)], [], [], []⟩

/-- The world after `calculate_column` adds column `c` to `dsC3`. -/
def worldC3out : World :=
  ⟨[("d", ⟨⟨["a", "c"], [[("a", Value.vInt 1), ("c", Value.vInt 7)]]⟩, true, false⟩)],
   [], [], []⟩

def dsC4 : DState := ⟨⟨["a"], [[("a", Value.vInt 1)]]⟩, true, true⟩

def worldC4 : World := ⟨[("d", dsC4)], [], [], []⟩

def rawC4 : DFrame := ⟨["b"], [[("b", Value.vInt 2)]]⟩

/-- A store with a merged child `C` holding rows from parents `D` and `E`. -/
def stC5 : Store :=
  [("C", ⟨⟨["x", "parent_dataset_id"],
      [[("x", Value.vInt 1), ("parent_dataset_id", Value.vStr "D")],
       [("x", Value.vInt 2), ("parent_dataset_id", Value.vStr "E")]]⟩, true, true⟩),
   ("D", ⟨⟨["y"], [[("y", Value.vInt 5)]]⟩, true, false⟩)]

def dsC5C : DState :=
  ⟨⟨["x", "parent_dataset_id"],
    [[("x", Value.vInt 1), ("parent_dataset_id", Value.vStr "D")],
     [("x", Value.vInt 2), ("parent_dataset_id", Value.vStr "E")]]⟩, true, true⟩

def dsC5D : DState := ⟨⟨["y"], [[("y", Value.vInt 5)]]⟩, true, false⟩

/-- Embedding of `stC5` after `propagate_column` refreshes `C` from parent `D`. -/
def stC5out : Store :=
  [("C", ⟨⟨["x", "parent_dataset_id", "y"],
      [[("x", Value.vInt 2), ("parent_dataset_id", Value.vStr "E")],
       [("y", Value.vInt 5), ("parent_dataset_id", Value.vStr "D")]]⟩, true, false⟩),
   ("D", ⟨⟨["y"], [[("y", Value.vInt 5)]]⟩, true, false⟩)]

/-- The join metadata of the leaked-variable scenario: a left join on `a` and
a right join on `b`, the right join listed last. -/
def metaC1 : DatasetMeta :=
  ⟨[⟨"a", "a"⟩, ⟨"b", "b"⟩], [], [],
   [⟨Direction.left, "r1", "a", "j1"⟩, ⟨Direction.right, "r2", "b", "j2"⟩], [],
   fun _ v => v⟩

def envC1 : Env := ⟨fun i => if i = "d" then metaC1 else emptyMeta, fun _ => (none, [])⟩

def dsC1 : DState := ⟨⟨["a", "b"], [[("a", Value.vInt 1), ("b", Value.vInt 1)]]⟩, true, true⟩

def worldC1 : World :=
  ⟨[("d", dsC1), ("r1", ⟨⟨["a"], [[("a", Value.vInt 9)]]⟩, true, false⟩),
    ("r2", ⟨⟨[], []⟩, true, false⟩)], [], [], []⟩

def rawC1 : DFrame := ⟨["a", "b"], [[("a", Value.vInt 1), ("b", Value.vInt 2)]]⟩

/-- An environment whose formula `two` compiles to two row functions. -/
def envC10 : Env := ⟨fun _ => emptyMeta,
  fun s => if s = "two" then (none, [fun _ => Value.vInt 1, fun _ => Value.vInt 2])
    else (none, [])⟩

/-- The key under which a row key survives `_update_merged_datasets`' in-place
rewrite: its truthy slug when it has one and is not reserved, itself
otherwise. -/
def slugRes (l2s : List (String × String)) (k : String) : String :=
  match truthySlug l2s k with
  | some s => if k ∈ MONGO_RESERVED_KEYS then k else s
  | none => k

def metaC9 : DatasetMeta := ⟨[⟨"a", "A"⟩], [], ["m"], [], [], fun _ v => v⟩

def envC9 : Env := ⟨fun _ => metaC9, fun _ => (none, [])⟩

def rowC9 : Row := [("A", Value.vInt 1), ("z", Value.vInt 2)]

def worldC9 : World := ⟨[], [], [], []⟩

/-- The schema of the C7 scenario: labels `A`,`B` with slugs `a`,`b`. -/
def metaC7 : DatasetMeta := ⟨[⟨"a", "A"⟩, ⟨"b", "B"⟩], [], [], [], [], fun _ v => v⟩

def envC7 : Env := ⟨fun _ => metaC7, fun _ => (none, [])⟩

/-- The key a row key would be stored under by `dframe_from_update`: itself
when reserved, otherwise its slug when the schema resolves one. -/
def updateKey (l2s : List (String × String)) (col : String) : String :=
  if col ∈ MONGO_RESERVED_KEYS then col else (pyGetSlug l2s col).getD col

/-- The amended C7 claim's conversion, stated in its own words: each incoming
key is translated by the schema (a label becomes its slug, a slug stays
itself) and its value type-converted, and it is kept only when its slug is
among the current table's columns — except in the bootstrap case, when the
current table has no columns yet, in which case the schema's declared columns
are the accepted ones.  A reserved key is kept as itself when it is among the
accepted columns (or no column is accepted at all). -/
def dframeFromUpdateAmended (env : Env) (d : String) (selfDF : DFrame)
    (newData : List Row) : DFrame :=
  let m := env.meta d
  let l2s := labelsToSlugs m
  let bootstrap := selfDF.columns.isEmpty
  let cols := if bootstrap then schemaKeys m else selfDF.columns
  let rows := newData.map (fun row => row.filterMap (fun kv =>
    if kv.1 ∈ MONGO_RESERVED_KEYS then
      if cols.isEmpty ∨ kv.1 ∈ cols then some kv else none
    else
      match pyGetSlug l2s kv.1 with
      | some s =>
        if bootstrap ∨ s ∈ cols then some (s, m.convert s kv.2) else none
      | none => none))
  ⟨rowsColumns rows, rows⟩

/-- The right-join scenario of C8: `d` is the right side of a join on `k`. -/
def metaC8 : DatasetMeta :=
  ⟨[], [], [], [⟨Direction.right, "o", "k", "j"⟩], [], fun _ v => v⟩

def envC8 : Env := ⟨fun i => if i = "d" then metaC8 else emptyMeta, fun _ => (none, [])⟩

def dsC8o : DState :=
  ⟨⟨["k", "y"], [[("k", Value.vNull), ("y", Value.vInt 7)]]⟩, true, false⟩

def worldC8 : World :=
  ⟨[("d", ⟨⟨["x"], []⟩, true, false⟩), ("o", dsC8o), ("j", ⟨⟨[], []⟩, true, false⟩)],
   [], [], []⟩

def rawC8 : DFrame := ⟨["x"], [[("x", Value.vInt 5)]]⟩

/-- The dataset ids `propagate_column` with the given fuel may write when
started at `cid`: `cid` and, recursively, its merged children. -/
def mergedDesc (env : Env) : Nat → String → List String
  | 0, _ => []
  | fuel + 1, cid => cid :: ((env.meta cid).merged).flatMap (mergedDesc env fuel)

/-- The dataset ids the synchronous part of the post-persist fan-out of
`calculate_updates` may write: the aggregated datasets and their merged
children, and the join-result datasets. -/
def postTouched (env : Env) (d : String) : List String :=
  ((env.meta d).aggregated).flatMap (fun p => p.2 :: (env.meta p.2).merged) ++
    ((env.meta d).joined).map JoinSpec.result

/-- Sum of column `a` over the rows whose group column `g` has value `v`. -/
def sumOverGroup (g a : String) (rows : List Row) (v : Value) : Int :=
  ((rows.filter (fun r => decide (rowVal r g = v))).map
    (fun r => valToInt (rowVal r a))).sum

/-! ## Basic association-list and store lemmas -/

section LookupLemmas

variable {β : Type}

theorem lookup_cons_self (a : String) (b : β) (t : List (String × β)) :
    ((a, b) :: t).lookup a = some b := by
  simp [List.lookup]

theorem lookup_cons_ne (a : String) (b : β) (t : List (String × β))
    (k : String) (h : k ≠ a) : ((a, b) :: t).lookup k = t.lookup k := by
  simp [List.lookup, beq_eq_false_iff_ne.mpr h]

theorem lookup_append (l1 l2 : List (String × β)) (k : String) :
    (l1 ++ l2).lookup k =
      match l1.lookup k with
      | some v => some v
      | none => l2.lookup k := by
  induction l1 with
  | nil => simp
  | cons p t ih =>
    obtain ⟨a, b⟩ := p
    by_cases h : k = a
    · subst h
      simp [lookup_cons_self]
    · rw [List.cons_append, lookup_cons_ne _ _ _ _ h, lookup_cons_ne _ _ _ _ h, ih]

theorem lookup_eq_none_of_not_mem_keys (l : List (String × β)) (k : String)
    (h : k ∉ l.map Prod.fst) : l.lookup k = none := by
  induction l with
  | nil => simp
  | cons p t ih =>
    simp only [List.map_cons, List.mem_cons] at h
    push_neg at h
    rw [← p.eta, lookup_cons_ne _ _ _ _ h.1]
    exact ih h.2

theorem lookup_eq_some_of_mem (l : List (String × β)) (k : String) (v : β)
    (hnd : (l.map Prod.fst).Nodup) (hm : (k, v) ∈ l) : l.lookup k = some v := by
  induction l with
  | nil => simp at hm
  | cons p t ih =>
    simp only [List.map_cons, List.nodup_cons] at hnd
    rcases List.mem_cons.mp hm with h | h
    · subst h
      exact lookup_cons_self _ _ _
    · have hk : k ≠ p.1 := by
        intro he
        exact hnd.1 (he ▸ List.mem_map_of_mem Prod.fst h)
      rw [← p.eta, lookup_cons_ne _ _ _ _ hk]
      exact ih hnd.2 h

end LookupLemmas

theorem rowErase_lookup_self (r : Row) (c : String) :
    (rowErase r c).lookup c = none := by
  apply lookup_eq_none_of_not_mem_keys
  intro h
  rcases List.mem_map.mp h with ⟨p, hp, he⟩
  have hne := (List.mem_filter.mp hp).2
  simp only [decide_eq_true_eq] at hne
  exact hne he

theorem rowErase_lookup_ne (r : Row) (c x : String) (h : x ≠ c) :
    (rowErase r c).lookup x = r.lookup x := by
  induction r with
  | nil => simp [rowErase]
  | cons p t ih =>
    by_cases hc : p.1 = c
    · rw [← p.eta, lookup_cons_ne _ _ _ _ (hc ▸ h)]
      rw [← ih]
      simp [rowErase, hc]
    · by_cases hx : x = p.1
      · subst hx
        have : rowErase (p :: t) c = p :: rowErase t c := by simp [rowErase, hc]
        rw [this, ← p.eta, lookup_cons_self, lookup_cons_self]
      · have : rowErase (p :: t) c = p :: rowErase t c := by simp [rowErase, hc]
        rw [this, ← p.eta, lookup_cons_ne _ _ _ _ hx, lookup_cons_ne _ _ _ _ hx, ih]

theorem lookup_mapReplace_self (t : Row) (k : String) (v : Value)
    (h : (t.lookup k).isSome = true) :
    (t.map (fun p => if p.1 = k then (k, v) else p)).lookup k = some v := by
  induction t with
  | nil => simp at h
  | cons p t ih =>
    by_cases hk : p.1 = k
    · simp only [List.map_cons, if_pos hk]
      exact lookup_cons_self _ _ _
    · have hne : k ≠ p.1 := fun he => hk he.symm
      rw [← p.eta, lookup_cons_ne _ _ _ _ hne] at h
      simp only [List.map_cons, if_neg hk]
      rw [← p.eta, lookup_cons_ne _ _ _ _ hne]
      exact ih h

theorem lookup_mapReplace_ne (t : Row) (k x : String) (v : Value) (h : x ≠ k) :
    (t.map (fun p => if p.1 = k then (k, v) else p)).lookup x = t.lookup x := by
  induction t with
  | nil => rfl
  | cons p t ih =>
    by_cases hk : p.1 = k
    · have hxp : x ≠ p.1 := fun he => h (hk ▸ he)
      simp only [List.map_cons, if_pos hk]
      rw [lookup_cons_ne _ _ _ _ h, ← p.eta, lookup_cons_ne _ _ _ _ hxp, ih]
    · simp only [List.map_cons, if_neg hk]
      by_cases hx : x = p.1
      · subst hx
        rw [← p.eta, lookup_cons_self, lookup_cons_self]
      · rw [← p.eta, lookup_cons_ne _ _ _ _ hx, lookup_cons_ne _ _ _ _ hx, ih]

theorem rowInsert_lookup_self (r : Row) (k : String) (v : Value) :
    (rowInsert r k v).lookup k = some v := by
  unfold rowInsert
  split
  · exact lookup_mapReplace_self _ _ _ (by assumption)
  · rename_i h
    have hn : r.lookup k = none := Option.not_isSome_iff_eq_none.mp h
    rw [lookup_append, hn]
    exact lookup_cons_self _ _ _

theorem rowInsert_lookup_ne (r : Row) (k x : String) (v : Value) (h : x ≠ k) :
    (rowInsert r k v).lookup x = r.lookup x := by
  unfold rowInsert
  split
  · exact lookup_mapReplace_ne _ _ _ _ h
  · rw [lookup_append, lookup_cons_ne _ _ _ _ h]
    cases r.lookup x <;> simp

theorem storeUpdate_lookup_eq (st : Store) (id : String) (f : DState → DState) :
    (storeUpdate st id f).lookup id = (st.lookup id).map f := by
  induction st with
  | nil => simp [storeUpdate]
  | cons p t ih =>
    by_cases h : p.1 = id
    · simp only [storeUpdate, List.map_cons, if_pos h]
      rw [← h, lookup_cons_self, ← p.eta, lookup_cons_self]
      rfl
    · have hne : id ≠ p.1 := fun he => h he.symm
      simp only [storeUpdate, List.map_cons, if_neg h]
      rw [← p.eta, lookup_cons_ne _ _ _ _ hne, lookup_cons_ne _ _ _ _ hne]
      exact ih

theorem storeUpdate_lookup_ne (st : Store) (id x : String) (f : DState → DState)
    (h : x ≠ id) : (storeUpdate st id f).lookup x = st.lookup x := by
  induction st with
  | nil => simp [storeUpdate]
  | cons p t ih =>
    by_cases hp : p.1 = id
    · simp only [storeUpdate, List.map_cons, if_pos hp]
      rw [lookup_cons_ne _ _ _ _ (hp ▸ h), ← p.eta, lookup_cons_ne _ _ _ _ (hp ▸ h)]
      exact ih
    · simp only [storeUpdate, List.map_cons, if_neg hp]
      by_cases hx : x = p.1
      · subst hx
        rw [← p.eta, lookup_cons_self, lookup_cons_self]
      · rw [← p.eta, lookup_cons_ne _ _ _ _ hx, lookup_cons_ne _ _ _ _ hx]
        exact ih

theorem zip_map_appendRow (l : List Row) (f : Row → Value) (nm : String) :
    ((l.zip (l.map f)).map (fun p => p.1 ++ [(nm, p.2)])) =
      l.map (fun r => r ++ [(nm, f r)]) := by
  induction l with
  | nil => rfl
  | cons r t ih => simp [ih]

theorem foldl_obind_none {σ τ : Type} (F : σ → τ → Option σ) (l : List τ) :
    l.foldl (fun acc m => acc.bind (fun s => F s m)) none = none := by
  induction l with
  | nil => rfl
  | cons a t ih => simp [ih]

/-! ## Which datasets `propagate_column` may write -/


/-- Embedding of `propagate_column` leaves every dataset outside `mergedDesc` untouched. -/
theorem propagate_preserves (env : Env) :
    ∀ (fuel : Nat) (st : Store) (pid cid : String) (st' : Store) (x : String),
      propagate_column env fuel st pid cid = some st' →
      x ∉ mergedDesc env fuel cid → st'.lookup x = st.lookup x := by
  intro fuel
  induction fuel with
  | zero =>
    intro st pid cid st' x h _
    simp [propagate_column] at h
  | succ n ih =>
    have fold : ∀ (l : List String) (pid2 : String) (st : Store) (st' : Store) (x : String),
        l.foldl (fun acc mid => acc.bind (fun s => propagate_column env n s pid2 mid))
          (some st) = some st' →
        x ∉ l.flatMap (mergedDesc env n) → st'.lookup x = st.lookup x := by
      intro l
      induction l with
      | nil =>
        intro pid2 st st' x h _
        obtain rfl : st = st' := by simpa using h
        rfl
      | cons c t iht =>
        intro pid2 st st' x h hx
        simp only [List.foldl_cons, Option.some_bind] at h
        simp only [List.flatMap_cons, List.mem_append] at hx
        push_neg at hx
        cases hs : propagate_column env n st pid2 c with
        | none =>
          rw [hs] at h
          rw [foldl_obind_none] at h
          exact absurd h (by simp)
        | some st1 =>
          rw [hs] at h
          rw [iht pid2 st1 st' x h hx.2, ih st pid2 c st1 x hs hx.1]
    intro st pid cid st' x h hx
    simp only [mergedDesc, List.mem_cons] at hx
    push_neg at hx
    simp only [propagate_column] at h
    set st1 := removeParentObs st cid pid with hst1
    cases h1 : st1.lookup cid with
    | none => rw [h1] at h; simp at h
    | some child1 =>
      cases h2 : st1.lookup pid with
      | none => rw [h1, h2] at h; simp at h
      | some parent1 =>
        rw [h1, h2] at h
        simp only at h
        have := fold ((env.meta cid).merged) cid _ st' x h hx.2
        rw [this]
        rw [clearStats, replaceObservations, storeUpdate_lookup_ne _ _ _ _ hx.1,
          storeUpdate_lookup_ne _ _ _ _ hx.1, hst1, removeParentObs,
          storeUpdate_lookup_ne _ _ _ _ hx.1]

/-! ## Which datasets the post-persist fan-out of `calculate_updates` may
write -/


theorem merged_dispatch_foldl_store (d : String) (slugified : List Row) :
    ∀ (l : List String) (w : World),
      (l.foldl (merged_dispatch_step d slugified) w).store = w.store := by
  intro l
  induction l with
  | nil => intro w; rfl
  | cons m t ih => intro w; rw [List.foldl_cons, ih]; rfl

theorem update_merged_datasets_store (env : Env) (d : String)
    (newData : List Row) (w : World) :
    (update_merged_datasets env d newData w).store = w.store := by
  unfold update_merged_datasets
  exact merged_dispatch_foldl_store _ _ _ _

theorem update_joined_one_lookup (env : Env) (d : String) (rawNew : DFrame)
    (w : World) (j : JoinSpec) (x : String) (hx : x ≠ j.result) :
    (update_joined_one env d rawNew w j).store.lookup x = w.store.lookup x := by
  unfold update_joined_one
  cases j.dir with
  | left =>
    simp only
    split
    · cases w.store.lookup j.other with
      | none => cases w.store.lookup d <;> rfl
      | some otherDS =>
        cases w.store.lookup d with
        | none => rfl
        | some selfDS =>
          simp only
          split
          · simp only [replaceObservations]
            exact storeUpdate_lookup_ne _ _ _ _ hx
          · rfl
    · rfl
  | right => rfl

theorem update_joined_datasets_lookup (env : Env) (d : String)
    (rawNew : DFrame) :
    ∀ (l : List JoinSpec) (w : World) (x : String),
      x ∉ l.map JoinSpec.result →
      (l.foldl (update_joined_one env d rawNew) w).store.lookup x =
        w.store.lookup x := by
  intro l
  induction l with
  | nil => intro w x _; rfl
  | cons j t ih =>
    intro w x hx
    simp only [List.map_cons, List.mem_cons] at hx
    push_neg at hx
    rw [List.foldl_cons, ih _ _ hx.2, update_joined_one_lookup _ _ _ _ _ _ hx.1]

theorem agg_child_foldl_lookup (aggId : String) (newAggDF : DFrame) :
    ∀ (l : List String) (w : World) (x : String), x ∉ l →
      (l.foldl (agg_child_step aggId newAggDF) w).store.lookup x =
        w.store.lookup x := by
  intro l
  induction l with
  | nil => intro w x _; rfl
  | cons m t ih =>
    intro w x hx
    simp only [List.mem_cons] at hx
    push_neg at hx
    rw [List.foldl_cons, ih _ _ hx.2]
    simp only [agg_child_step, removeParentObs]
    exact storeUpdate_lookup_ne _ _ _ _ hx.1

theorem update_aggregate_dataset_lookup (env : Env) (w : World)
    (formula slugName group aggId : String) (newDF : DFrame) (x : String)
    (hx1 : x ≠ aggId) (hx2 : x ∉ (env.meta aggId).merged) :
    (update_aggregate_dataset env w formula slugName group aggId newDF).store.lookup x =
      w.store.lookup x := by
  unfold update_aggregate_dataset
  cases w.store.lookup aggId with
  | none => rfl
  | some aggDS =>
    simp only
    rw [agg_child_foldl_lookup _ _ _ _ _ hx2]
    simp only [replaceObservations]
    exact storeUpdate_lookup_ne _ _ _ _ hx1

theorem create_calcs_aggId_mem (env : Env) (d : String)
    (aggregations : List Calculation)
    (q : String × String × String × String)
    (hq : q ∈ create_calcs_to_data env d aggregations) :
    q.2.2.2 ∈ ((env.meta d).aggregated).map Prod.snd := by
  unfold create_calcs_to_data at hq
  rcases List.mem_flatMap.mp hq with ⟨p, hp, hq2⟩
  rcases List.mem_map.mp hq2 with ⟨lbl, _, he⟩
  have : q.2.2.2 = p.2 := by rw [← he]
  rw [this]
  exact List.mem_map_of_mem Prod.snd hp

theorem update_aggregate_datasets_lookup (env : Env) (d : String)
    (aggregations : List Calculation) (newDF : DFrame) (w : World) (x : String)
    (hx : x ∉ ((env.meta d).aggregated).flatMap (fun p => p.2 :: (env.meta p.2).merged)) :
    (update_aggregate_datasets env d aggregations newDF w).store.lookup x =
      w.store.lookup x := by
  have hids : ∀ a ∈ ((env.meta d).aggregated).map Prod.snd,
      x ≠ a ∧ x ∉ (env.meta a).merged := by
    intro a ha
    rcases List.mem_map.mp ha with ⟨p, hp, he⟩
    subst he
    constructor
    · intro hxa
      exact hx (List.mem_flatMap.mpr ⟨p, hp, by rw [hxa]; exact List.mem_cons_self _ _⟩)
    · intro hxm
      exact hx (List.mem_flatMap.mpr ⟨p, hp, List.mem_cons_of_mem _ hxm⟩)
  unfold update_aggregate_datasets
  have hgen : ∀ (l : List (String × String × String × String)) (w : World),
      (∀ q ∈ l, q.2.2.2 ∈ ((env.meta d).aggregated).map Prod.snd) →
      (l.foldl (fun w q => update_aggregate_dataset env w q.1 q.2.1 q.2.2.1 q.2.2.2 newDF) w).store.lookup x =
        w.store.lookup x := by
    intro l
    induction l with
    | nil => intro w _; rfl
    | cons q t ih =>
      intro w hl
      have hq := hids q.2.2.2 (hl q (List.mem_cons_self _ _))
      rw [List.foldl_cons, ih _ (fun r hr => hl r (List.mem_cons_of_mem _ hr)),
        update_aggregate_dataset_lookup _ _ _ _ _ _ _ _ hq.1 hq.2]
  exact hgen _ w (fun q hq => create_calcs_aggId_mem env d aggregations q hq)

/-! ## Aggregation arithmetic -/


theorem sumGroupContribution_map (g : String) (f : Row → Value) (R : List Row)
    (v : Value) :
    sumGroupContribution g R (R.map f) v =
      ((R.filter (fun r => decide (rowVal r g = v))).map
        (fun r => valToInt (f r))).sum := by
  unfold sumGroupContribution
  induction R with
  | nil => rfl
  | cons r t ih =>
    by_cases h : rowVal r g = v <;>
      simp [List.zip_cons_cons, List.filter_cons, h, ih]

theorem sumOverGroup_append (g a : String) (R1 R2 : List Row) (v : Value) :
    sumOverGroup g a (R1 ++ R2) v = sumOverGroup g a R1 v + sumOverGroup g a R2 v := by
  unfold sumOverGroup
  rw [List.filter_append, List.map_append, List.sum_append]

theorem sumOverGroup_eq_zero (g a : String) (R : List Row) (v : Value)
    (h : v ∉ R.map (fun r => rowVal r g)) : sumOverGroup g a R v = 0 := by
  unfold sumOverGroup
  have : R.filter (fun r => decide (rowVal r g = v)) = [] := by
    apply List.filter_eq_nil_iff.mpr
    intro r hr
    simp only [decide_eq_true_eq]
    intro he
    exact h (List.mem_map.mpr ⟨r, hr, he⟩)
  rw [this]
  rfl

theorem rowVal_keyRow (g nm : String) (u w : Value) :
    rowVal [(g, u), (nm, w)] g = u := by
  simp [rowVal, lookup_cons_self]

theorem rowVal_keyRow_snd (g nm : String) (u w : Value) (h : nm ≠ g) :
    rowVal [(g, u), (nm, w)] nm = w := by
  rw [rowVal, lookup_cons_ne _ _ _ _ h, lookup_cons_self]
  rfl

theorem rowInsert_keyRow (g nm : String) (u w x : Value) (h : nm ≠ g) :
    rowInsert [(g, u), (nm, w)] nm x = [(g, u), (nm, x)] := by
  have hl : (([(g, u), (nm, w)] : Row).lookup nm).isSome = true := by
    rw [lookup_cons_ne _ _ _ _ h, lookup_cons_self]
    rfl
  rw [rowInsert, if_pos hl]
  have hg : ¬ g = nm := fun he => h he.symm
  simp [hg]

theorem find_keyRows_mem (g nm : String) (keys : List Value) (t : Value → Int)
    (v : Value) (hv : v ∈ keys) :
    (keys.map (fun u => [(g, u), (nm, Value.vInt (t u))])).find?
        (fun r => decide (rowVal r g = v)) =
      some [(g, v), (nm, Value.vInt (t v))] := by
  induction keys with
  | nil => simp at hv
  | cons u ks ih =>
    rw [List.map_cons]
    by_cases h : u = v
    · subst h
      rw [List.find?_cons_of_pos]
      simp [rowVal_keyRow]
    · rw [List.find?_cons_of_neg]
      · exact ih (by
          rcases List.mem_cons.mp hv with h2 | h2
          · exact absurd h2.symm h
          · exact h2)
      · simp [rowVal_keyRow, h]

theorem find_keyRows_not_mem (g nm : String) (keys : List Value)
    (t : Value → Int) (v : Value) (hv : v ∉ keys) :
    (keys.map (fun u => [(g, u), (nm, Value.vInt (t u))])).find?
        (fun r => decide (rowVal r g = v)) = none := by
  induction keys with
  | nil => rfl
  | cons u ks ih =>
    rw [List.map_cons, List.find?_cons_of_neg]
    · exact ih (fun h2 => hv (List.mem_cons_of_mem _ h2))
    · have h : u ≠ v := fun he => hv (he ▸ List.mem_cons_self _ _)
      simp [rowVal_keyRow, h]

theorem keyRows_rowVal_map (g nm : String) (keys : List Value) (t : Value → Int) :
    ((keys.map (fun u => [(g, u), (nm, Value.vInt (t u))])).map
      (fun r => rowVal r g)) = keys := by
  rw [List.map_map]
  have : ∀ u ∈ keys, ((fun r => rowVal r g) ∘ fun u => [(g, u), (nm, Value.vInt (t u))]) u = id u := by
    intro u _
    simp [Function.comp, rowVal_keyRow]
  rw [List.map_congr_left this, List.map_id]

/-- Embedding of `aggregator_update` on a table whose rows are exactly group-keyed result
rows: every stored group accumulates the new rows' contribution and the new
groups are appended. -/
theorem aggregator_update_keyRows (g nm : String) (hgn : nm ≠ g)
    (cols : List String) (keys : List Value) (t : Value → Int)
    (R : List Row) (f : Row → Value) :
    aggregator_update g nm ⟨cols, keys.map (fun u => [(g, u), (nm, Value.vInt (t u))])⟩
        R (R.map f) =
      ⟨dedupCols cols [g, nm],
       keys.map (fun u => [(g, u),
         (nm, Value.vInt (t u + sumGroupContribution g R (R.map f) u))]) ++
       ((newGroupKeys g R).filter (fun v => ¬ keys.contains v)).map
         (fun v => [(g, v), (nm, Value.vInt (sumGroupContribution g R (R.map f) v))])⟩ := by
  have hcol : dfCol ⟨cols, keys.map (fun u => [(g, u), (nm, Value.vInt (t u))])⟩ g = keys :=
    keyRows_rowVal_map g nm keys t
  dsimp only [aggregator_update]
  rw [hcol]
  congr 1
  congr 1
  rw [List.map_map]
  apply List.map_congr_left
  intro u _
  simp only [Function.comp]
  rw [rowVal_keyRow_snd _ _ _ _ hgn, rowVal_keyRow, rowInsert_keyRow _ _ _ _ _ hgn]
  simp [valToInt]

theorem dedupCols_nil (l : List String) : dedupCols [] l = l := by
  unfold dedupCols
  rw [List.nil_append]
  induction l with
  | nil => rfl
  | cons a t ih => simp [ih]


/-! ## The aggregation scenario, step by step -/

theorem envC6_meta_d : envC6.meta "d" = metaD6 := by simp [envC6]

theorem envC6_meta_agg : envC6.meta "agg" = metaAgg6 := by simp [envC6]

theorem envC6_parse_sum : envC6.parse "sumform" = (some "sum", [sumFn]) := by simp [envC6]

theorem rawOf_rows (R : List Row) : (rawOf R).rows = R := rfl

theorem add_calcs_envC6 (cols : List String) (df : DFrame) (hc : "total" ∉ cols) :
    add_calcs_and_find_aggregations envC6 cols [("g", "g"), ("a", "a")]
        [⟨"total", "sumform"⟩] df =
      some (df, [⟨"total", "sumform"⟩]) := by
  simp [add_calcs_and_find_aggregations, envC6_parse_sum, List.lookup, hc]

theorem envC6_step (R : List Row) (obs aggT : DFrame) (s1 s2 : Bool)
    (hc : "total" ∉ obs.columns) :
    calculate_updates envC6 "d" [] (some (rawOf R)) none
      ⟨[("d", ⟨obs, true, s1⟩), ("agg", ⟨aggT, true, s2⟩)], [], [], []⟩ =
    (⟨[("d", ⟨DFrame.concat obs (rawOf R), true, false⟩),
       ("agg", ⟨aggregator_update "g" "total" aggT R (R.map sumFn), true, s2⟩)],
      [], [], []⟩, none) := by
  have hc2 : "total" ∉ (dsDFrame ⟨obs, true, s1⟩).columns := by
    intro hm
    exact hc (List.mem_filter.mp hm).1
  simp [calculate_updates, List.lookup, check_update_is_valid,
    envC6_meta_d, envC6_meta_agg, envC6_parse_sum, metaD6, metaAgg6,
    recognize_dates_from_schema, labelsToSlugs,
    add_calcs_envC6 ((dsDFrame ⟨obs, true, s1⟩).columns) (rawOf R) hc2,
    update_aggregate_datasets, create_calcs_to_data,
    update_aggregate_dataset, make_columns, update_merged_datasets,
    update_joined_datasets, replaceObservations, clearStats, storeUpdate,
    removeParentObs, dsDFrameKeep, rawOf_rows]

theorem contribution_sumFn (R : List Row) (u : Value) :
    sumGroupContribution "g" R (R.map sumFn) u = sumOverGroup "g" "a" R u := by
  rw [sumGroupContribution_map]
  simp [sumFn, sumOverGroup]

/-- C6: for a sum-type aggregation grouped by column `g`, after two sequential
successful `calculate_updates` calls with row sets `R1` and then `R2`, the
stored aggregate value for each occurring group value `v` equals the sum of
the aggregation column over all rows of `R1` and `R2` whose `g` equals `v`
(the incremental update folds only the new rows into the existing result). -/
theorem claim_C6 (R1 R2 : List Row) (v : Value)
    (hv : v ∈ (R1 ++ R2).map (fun r => rowVal r "g")) :
    (calculate_updates envC6 "d" [] (some (rawOf R1)) none worldC6).2 = none ∧
    (calculate_updates envC6 "d" [] (some (rawOf R2)) none
        (calculate_updates envC6 "d" [] (some (rawOf R1)) none worldC6).1).2 = none ∧
    storedAggValue
        (calculate_updates envC6 "d" [] (some (rawOf R2)) none
          (calculate_updates envC6 "d" [] (some (rawOf R1)) none worldC6).1).1
        "agg" "g" "total" v =
      some (Value.vInt (sumOverGroup "g" "a" (R1 ++ R2) v)) := by
  have hW : worldC6 =
      ⟨[("d", ⟨⟨[], []⟩, true, false⟩), ("agg", ⟨⟨[], []⟩, true, false⟩)], [], [], []⟩ := rfl
  have h1 := envC6_step R1 ⟨[], []⟩ ⟨[], []⟩ false false (by simp)
  have hcat : DFrame.concat ⟨[], []⟩ (rawOf R1) = rawOf R1 := by
    simp [DFrame.concat, dedupCols_nil, rawOf]
  rw [hcat] at h1
  have hA1 : aggregator_update "g" "total" ⟨[], []⟩ R1 (R1.map sumFn) =
      ⟨["g", "total"],
       (newGroupKeys "g" R1).map (fun u =>
         [("g", u), ("total", Value.vInt (sumOverGroup "g" "a" R1 u))])⟩ := by
    have h0 := aggregator_update_keyRows "g" "total" (by decide) [] []
      (fun u => sumOverGroup "g" "a" R1 u) R1 sumFn
    simp only [List.map_nil] at h0
    rw [h0]
    simp [dedupCols_nil, contribution_sumFn]
  rw [hW, h1]
  have hcols : "total" ∉ (rawOf R1).columns := by
    intro h
    simp [rawOf] at h
  have h2 := envC6_step R2 (rawOf R1)
    (aggregator_update "g" "total" ⟨[], []⟩ R1 (R1.map sumFn)) false false hcols
  rw [h2]
  refine ⟨rfl, rfl, ?_⟩
  have hA2 : aggregator_update "g" "total"
      (aggregator_update "g" "total" ⟨[], []⟩ R1 (R1.map sumFn)) R2 (R2.map sumFn) =
      ⟨dedupCols ["g", "total"] ["g", "total"],
       (newGroupKeys "g" R1).map (fun u =>
         [("g", u), ("total", Value.vInt (sumOverGroup "g" "a" R1 u + sumOverGroup "g" "a" R2 u))]) ++
       ((newGroupKeys "g" R2).filter (fun u => ¬ (newGroupKeys "g" R1).contains u)).map
         (fun u => [("g", u), ("total", Value.vInt (sumOverGroup "g" "a" R2 u))])⟩ := by
    rw [hA1]
    have h0 := aggregator_update_keyRows "g" "total" (by decide) ["g", "total"]
      (newGroupKeys "g" R1) (fun u => sumOverGroup "g" "a" R1 u) R2 sumFn
    rw [h0]
    simp only [contribution_sumFn]
  rw [hA2]
  unfold storedAggValue
  have hne : (("agg" : String) == "d") = false := by decide
  have heq : (("agg" : String) == "agg") = true := by decide
  simp only [List.lookup, hne, heq, Option.some_bind]
  by_cases hmem : v ∈ newGroupKeys "g" R1
  · rw [List.find?_append,
      find_keyRows_mem "g" "total" (newGroupKeys "g" R1)
        (fun u => sumOverGroup "g" "a" R1 u + sumOverGroup "g" "a" R2 u) v hmem]
    simp only [Option.or]
    rw [sumOverGroup_append]
    simp [rowVal_keyRow_snd]
  · have hvR1 : v ∉ R1.map (fun r => rowVal r "g") := by
      intro h
      exact hmem (List.mem_dedup.mpr h)
    have hvK2 : v ∈ newGroupKeys "g" R2 := by
      apply List.mem_dedup.mpr
      rw [List.map_append] at hv
      rcases List.mem_append.mp hv with h | h
      · exact absurd h hvR1
      · exact h
    have hv2 : v ∈ (newGroupKeys "g" R2).filter
        (fun u => decide ¬ (newGroupKeys "g" R1).contains u = true) := by
      apply List.mem_filter.mpr
      refine ⟨hvK2, ?_⟩
      simp only [decide_eq_true_eq]
      intro hc
      exact hmem (by simpa using hc)
    rw [List.find?_append,
      find_keyRows_not_mem "g" "total" (newGroupKeys "g" R1)
        (fun u => sumOverGroup "g" "a" R1 u + sumOverGroup "g" "a" R2 u) v hmem]
    simp only [Option.or]
    rw [find_keyRows_mem "g" "total" _ (fun u => sumOverGroup "g" "a" R2 u) v hv2]
    rw [sumOverGroup_append, sumOverGroup_eq_zero _ _ _ _ hvR1, zero_add]
    simp [rowVal_keyRow_snd]


/-- Witness for C6 at a concrete input: R1 = two rows of group x, R2 = one row
of group y; the stored aggregate for x is 3. -/
theorem claim_C6_witness :
    ((Value.vStr "x") ∈
      (([[("g", Value.vStr "x"), ("a", Value.vInt 1)],
         [("g", Value.vStr "x"), ("a", Value.vInt 2)]] ++
        [[("g", Value.vStr "y"), ("a", Value.vInt 5)]]).map (fun r => rowVal r "g"))) ∧
    ((calculate_updates envC6 "d" []
        (some (rawOf [[("g", Value.vStr "x"), ("a", Value.vInt 1)],
          [("g", Value.vStr "x"), ("a", Value.vInt 2)]])) none worldC6).2 = none ∧
     (calculate_updates envC6 "d" []
        (some (rawOf [[("g", Value.vStr "y"), ("a", Value.vInt 5)]])) none
        (calculate_updates envC6 "d" []
          (some (rawOf [[("g", Value.vStr "x"), ("a", Value.vInt 1)],
            [("g", Value.vStr "x"), ("a", Value.vInt 2)]])) none worldC6).1).2 = none ∧
     storedAggValue
        (calculate_updates envC6 "d" []
          (some (rawOf [[("g", Value.vStr "y"), ("a", Value.vInt 5)]])) none
          (calculate_updates envC6 "d" []
            (some (rawOf [[("g", Value.vStr "x"), ("a", Value.vInt 1)],
              [("g", Value.vStr "x"), ("a", Value.vInt 2)]])) none worldC6).1).1
        "agg" "g" "total" (Value.vStr "x") =
      some (Value.vInt (sumOverGroup "g" "a"
        ([[("g", Value.vStr "x"), ("a", Value.vInt 1)],
          [("g", Value.vStr "x"), ("a", Value.vInt 2)]] ++
         [[("g", Value.vStr "y"), ("a", Value.vInt 5)]]) (Value.vStr "x")))) :=
  ⟨by decide, claim_C6 _ _ _ (by decide)⟩

/-! ## Helper lemmas for the propagation claims -/

theorem propagate_fold_preserves (env : Env) (fuel : Nat) :
    ∀ (l : List String) (pid2 : String) (st st' : Store) (x : String),
      l.foldl (fun acc mid => acc.bind (fun s => propagate_column env fuel s pid2 mid))
        (some st) = some st' →
      x ∉ l.flatMap (mergedDesc env fuel) → st'.lookup x = st.lookup x := by
  intro l
  induction l with
  | nil =>
    intro pid2 st st' x h _
    obtain rfl : st = st' := by simpa using h
    rfl
  | cons c t iht =>
    intro pid2 st st' x h hx
    simp only [List.foldl_cons, Option.some_bind] at h
    simp only [List.flatMap_cons, List.mem_append] at hx
    push_neg at hx
    cases hs : propagate_column env fuel st pid2 c with
    | none =>
      rw [hs] at h
      rw [foldl_obind_none] at h
      exact absurd h (by simp)
    | some st1 =>
      rw [hs] at h
      rw [iht pid2 st1 st' x h hx.2, propagate_preserves env fuel st pid2 c st1 x hs hx.1]

theorem filter_parent_of_removed (rows : List Row) (D : String) :
    ((rows.filter (fun r => rowVal r PARENT_COLUMN ≠ Value.vStr D)).filter
      (fun r => decide (rowVal r PARENT_COLUMN = Value.vStr D))) = [] := by
  apply List.filter_eq_nil_iff.mpr
  intro r hr
  have := (List.mem_filter.mp hr).2
  simp only [decide_eq_true_eq] at this ⊢
  exact this

theorem addParentColumn_rowVal (df : DFrame) (pid : String) (r : Row)
    (hr : r ∈ (DFrame.addParentColumn df pid).rows) :
    rowVal r PARENT_COLUMN = Value.vStr pid := by
  unfold DFrame.addParentColumn at hr
  rcases List.mem_map.mp hr with ⟨r0, _, he⟩
  subst he
  rw [rowVal, lookup_append, rowErase_lookup_self]
  rfl

theorem update_joined_datasets_lookupW (env : Env) (d : String) (rawNew : DFrame)
    (w : World) (x : String)
    (hx : x ∉ ((env.meta d).joined).map JoinSpec.result) :
    (update_joined_datasets env d rawNew w).store.lookup x = w.store.lookup x := by
  unfold update_joined_datasets
  exact update_joined_datasets_lookup env d rawNew _ w x hx

/-- C2: calling `calculate_updates` on a dataset whose readiness flag is false
leaves the store untouched and schedules exactly one delayed retry of the same
call, raising the not-ready condition instead of proceeding. -/
theorem claim_C2 (env : Env) (d : String) (newData : List Row)
    (raw : Option DFrame) (pid : Option String) (w : World) (ds : DState)
    (hds : w.store.lookup d = some ds) (hready : ds.isReady = false) :
    calculate_updates env d newData raw pid w =
      ({ w with retries := w.retries ++ [d] }, some CalcError.notReady) := by
  unfold calculate_updates
  rw [hds]
  simp [hready]

theorem claim_C2_witness :
    ((⟨[("d", ⟨⟨["a"], []⟩, false, true⟩)], [], [], []⟩ : World).store.lookup "d" =
        some ⟨⟨["a"], []⟩, false, true⟩) ∧
    calculate_updates envTriv "d" [] none none
        ⟨[("d", ⟨⟨["a"], []⟩, false, true⟩)], [], [], []⟩ =
      (⟨[("d", ⟨⟨["a"], []⟩, false, true⟩)], [], ["d"], []⟩, some CalcError.notReady) :=
  ⟨by decide, claim_C2 envTriv "d" [] none none
    ⟨[("d", ⟨⟨["a"], []⟩, false, true⟩)], [], [], []⟩
    ⟨⟨["a"], []⟩, false, true⟩ (by decide) rfl⟩

/-- C3: after a successful `calculate_column` with a row-wise (non-aggregation)
formula compiling to row function `f`, the named column exists in the persisted
table and every row's value of it is `f` of that row's other columns, with `f`
applied over the entire current table; the recursion into merged children does
not touch the dataset itself when the merge graph does not re-enter it. -/
theorem claim_C3 (env : Env) (fuel : Nat) (d formula name : String)
    (gs : Option String) (w w' : World) (ds : DState) (f : Row → Value)
    (rest : List (Row → Value))
    (hds : w.store.lookup d = some ds)
    (hwf : ∀ r ∈ ds.observations.rows, ∀ p ∈ r, p.1 ∈ ds.observations.columns)
    (hparse : env.parse formula = (none, f :: rest))
    (hname : name ∉ (dsDFrame ds).columns)
    (hside : d ∉ ((env.meta d).merged).flatMap (mergedDesc env fuel))
    (hsucc : calculate_column env fuel d formula name gs w = some w') :
    ∃ st', w'.store.lookup d = some st' ∧
      st'.observations.columns = (dsDFrame ds).columns ++ [name] ∧
      name ∈ st'.observations.columns ∧
      st'.observations.rows = (dsDFrame ds).rows.map (fun r => r ++ [(name, f r)]) ∧
      (∀ r ∈ (dsDFrame ds).rows,
        (r ++ [(name, f r)]).lookup name = some (f r)) := by
  simp only [calculate_column, hds, make_columns, hparse, List.map_cons] at hsucc
  rw [DFrame.join, if_neg hname] at hsucc
  simp only [Option.map_some', Option.some_bind] at hsucc
  obtain ⟨stf, hfold, hwb⟩ := Option.map_eq_some'.mp hsucc
  refine ⟨⟨⟨(dsDFrame ds).columns ++ [name],
      (dsDFrame ds).rows.map (fun r => r ++ [(name, f r)])⟩, ds.isReady, ds.statsCached⟩,
    ?_, rfl, by simp, rfl, ?_⟩
  · rw [← hwb]
    show stf.lookup d = _
    rw [propagate_fold_preserves env fuel _ _ _ _ _ hfold hside]
    show (replaceObservations w.store d _).lookup d = _
    rw [replaceObservations, storeUpdate_lookup_eq, hds, Option.map_some']
    rw [zip_map_appendRow]
  · intro r hr
    simp only [dsDFrame, dropParentIds] at hr
    have hkeys : r.lookup name = none := by
      rcases List.mem_map.mp hr with ⟨r0, hr0, he⟩
      subst he
      apply lookup_eq_none_of_not_mem_keys
      intro hmem
      rcases List.mem_map.mp hmem with ⟨p, hp, hpe⟩
      have hpr0 := List.mem_filter.mp hp
      have hne : p.1 ≠ PARENT_COLUMN := by simpa using hpr0.2
      apply hname
      subst hpe
      simp only [dsDFrame, dropParentIds]
      apply List.mem_filter.mpr
      exact ⟨hwf r0 hr0 p hpr0.1, by simpa using hne⟩
    rw [lookup_append, hkeys]
    exact lookup_cons_self _ _ _

theorem claim_C3_witness :
    (worldC3.store.lookup "d" = some dsC3) ∧
    (∀ r ∈ dsC3.observations.rows, ∀ p ∈ r, p.1 ∈ dsC3.observations.columns) ∧
    (envC3.parse "add" = (none, [fun _ => Value.vInt 7])) ∧
    ("c" ∉ (dsDFrame dsC3).columns) ∧
    ("d" ∉ ((envC3.meta "d").merged).flatMap (mergedDesc envC3 0)) ∧
    (calculate_column envC3 0 "d" "add" "c" none worldC3 = some worldC3out) ∧
    (∃ st', worldC3out.store.lookup "d" = some st' ∧
      st'.observations.columns = (dsDFrame dsC3).columns ++ ["c"] ∧
      "c" ∈ st'.observations.columns ∧
      st'.observations.rows =
        (dsDFrame dsC3).rows.map (fun r => r ++ [("c", (fun _ => Value.vInt 7) r)]) ∧
      (∀ r ∈ (dsDFrame dsC3).rows,
        (r ++ [("c", (fun _ => Value.vInt 7) r)]).lookup "c" =
          some ((fun _ => Value.vInt 7) r))) :=
  ⟨by decide, by decide, rfl, by decide, by decide, rfl,
   claim_C3 envC3 0 "d" "add" "c" none worldC3 worldC3out dsC3
     (fun _ => Value.vInt 7) [] (by decide) (by decide) rfl (by decide) (by decide) rfl⟩

/-- C4: a successful `calculate_updates` persists exactly the previously stored
rows (parent-tag columns included, each row unchanged) followed by the processed
new rows, tags every new row with the parent dataset id when one was supplied,
and clears the cached summary statistics. -/
theorem claim_C4 (env : Env) (d : String) (newData : List Row)
    (raw : Option DFrame) (pid : Option String) (w w' : World) (ds : DState)
    (hds : w.store.lookup d = some ds)
    (hside : d ∉ postTouched env d)
    (hsucc : calculate_updates env d newData raw pid w = (w', none)) :
    ∃ st', w'.store.lookup d = some st' ∧
      st'.observations =
        DFrame.concat ds.observations (processedNewDF env d ds newData raw pid) ∧
      st'.observations.rows =
        ds.observations.rows ++ (processedNewDF env d ds newData raw pid).rows ∧
      st'.statsCached = false ∧
      (∀ p, pid = some p → ∀ r ∈ (processedNewDF env d ds newData raw pid).rows,
        rowVal r PARENT_COLUMN = Value.vStr p) := by
  simp only [calculate_updates, hds] at hsucc
  split at hsucc
  · exact absurd hsucc (by simp [Prod.ext_iff])
  · split at hsucc
    · exact absurd hsucc (by simp [Prod.ext_iff])
    · split at hsucc
      · exact absurd hsucc (by simp [Prod.ext_iff])
      · rename_i q hadd
        injection hsucc with h1 h2
        subst h1
        have hpd : processedNewDF env d ds newData raw pid =
            (match pid with
             | some p => DFrame.addParentColumn q.1 p
             | none => q.1) := by
          simp only [processedNewDF]
          rw [hadd]
        have hside1 : d ∉ ((env.meta d).aggregated).flatMap
            (fun p => p.2 :: (env.meta p.2).merged) := by
          intro h
          exact hside (List.mem_append.mpr (Or.inl h))
        have hside2 : d ∉ ((env.meta d).joined).map JoinSpec.result := by
          intro h
          exact hside (List.mem_append.mpr (Or.inr h))
        rw [← hpd]
        refine ⟨⟨DFrame.concat ds.observations (processedNewDF env d ds newData raw pid),
          ds.isReady, false⟩, ?_, rfl, rfl, rfl, ?_⟩
        · rw [update_joined_datasets_lookupW _ _ _ _ _ hside2,
            update_merged_datasets_store,
            update_aggregate_datasets_lookup _ _ _ _ _ _ hside1]
          simp only [clearStats, replaceObservations, storeUpdate_lookup_eq, hds]
          rfl
        · intro p hp r hrow
          rw [hpd, hp] at hrow
          exact addParentColumn_rowVal _ _ _ hrow

theorem claim_C4_witness :
    (worldC4.store.lookup "d" = some dsC4) ∧
    ("d" ∉ postTouched envTriv "d") ∧
    (calculate_updates envTriv "d" [] (some rawC4) (some "p") worldC4 =
      ((calculate_updates envTriv "d" [] (some rawC4) (some "p") worldC4).1, none)) ∧
    (∃ st', ((calculate_updates envTriv "d" [] (some rawC4) (some "p") worldC4).1).store.lookup "d" =
        some st' ∧
      st'.observations =
        DFrame.concat dsC4.observations (processedNewDF envTriv "d" dsC4 [] (some rawC4) (some "p")) ∧
      st'.observations.rows =
        dsC4.observations.rows ++ (processedNewDF envTriv "d" dsC4 [] (some rawC4) (some "p")).rows ∧
      st'.statsCached = false ∧
      (∀ p, (some "p" : Option String) = some p →
        ∀ r ∈ (processedNewDF envTriv "d" dsC4 [] (some rawC4) (some "p")).rows,
          rowVal r PARENT_COLUMN = Value.vStr p)) :=
  ⟨by decide, by decide, by decide,
   claim_C4 envTriv "d" [] (some rawC4) (some "p") worldC4
     ((calculate_updates envTriv "d" [] (some rawC4) (some "p") worldC4).1) dsC4
     (by decide) (by decide) (by decide)⟩

/-- C5: a successful `propagate_column` call replaces the merged child's table
by its previous rows not tagged with the parent's id followed by the parent's
full current table tagged with the parent's id — so the child holds a row
tagged with the parent exactly for the rows currently in the parent — clears
the child's cached summary statistics, and recurses into the child's own
merged children with the child as the new parent. -/
theorem claim_C5 (env : Env) (fuel : Nat) (st st' : Store) (D C : String)
    (cDS dDS : DState)
    (hC : st.lookup C = some cDS) (hD : st.lookup D = some dDS) (hDC : D ≠ C)
    (hside : C ∉ ((env.meta C).merged).flatMap (mergedDesc env fuel))
    (hsucc : propagate_column env (fuel + 1) st D C = some st') :
    (propagate_column env (fuel + 1) st D C =
      ((env.meta C).merged).foldl
        (fun acc mid => acc.bind (fun s => propagate_column env fuel s C mid))
        (some (clearStats (replaceObservations (removeParentObs st C D) C
          (DFrame.concat (removeParentObservations cDS D).observations
            (DFrame.addParentColumn (dsDFrame dDS) D))) C))) ∧
    st'.lookup C = some ⟨DFrame.concat (removeParentObservations cDS D).observations
        (DFrame.addParentColumn (dsDFrame dDS) D), cDS.isReady, false⟩ ∧
    ((DFrame.concat (removeParentObservations cDS D).observations
        (DFrame.addParentColumn (dsDFrame dDS) D)).rows.filter
      (fun r => decide (rowVal r PARENT_COLUMN = Value.vStr D))) =
      (DFrame.addParentColumn (dsDFrame dDS) D).rows := by
  have h1 : (removeParentObs st C D).lookup C = some (removeParentObservations cDS D) := by
    rw [removeParentObs, storeUpdate_lookup_eq, hC]
    rfl
  have h2 : (removeParentObs st C D).lookup D = some dDS := by
    rw [removeParentObs, storeUpdate_lookup_ne _ _ _ _ hDC, hD]
  have hdef : propagate_column env (fuel + 1) st D C =
      ((env.meta C).merged).foldl
        (fun acc mid => acc.bind (fun s => propagate_column env fuel s C mid))
        (some (clearStats (replaceObservations (removeParentObs st C D) C
          (DFrame.concat (removeParentObservations cDS D).observations
            (DFrame.addParentColumn (dsDFrame dDS) D))) C)) := by
    simp only [propagate_column, h1, h2]
    rfl
  refine ⟨hdef, ?_, ?_⟩
  · rw [hdef] at hsucc
    rw [propagate_fold_preserves env fuel _ _ _ _ _ hsucc hside]
    rw [clearStats, replaceObservations, storeUpdate_lookup_eq, storeUpdate_lookup_eq, h1]
    rfl
  · show ((DFrame.concat _ _).rows.filter _) = _
    rw [DFrame.concat]
    show ((removeParentObservations cDS D).observations.rows ++
        (DFrame.addParentColumn (dsDFrame dDS) D).rows).filter _ = _
    rw [List.filter_append]
    rw [removeParentObservations]
    show ((cDS.observations.rows.filter _).filter _ ++ _) = _
    rw [filter_parent_of_removed]
    rw [List.nil_append]
    apply List.filter_eq_self.mpr
    intro r hr
    simp only [decide_eq_true_eq]
    exact addParentColumn_rowVal _ _ _ hr

theorem claim_C5_witness :
    (stC5.lookup "C" = some dsC5C) ∧
    (stC5.lookup "D" = some dsC5D) ∧
    ("D" ≠ "C") ∧
    ("C" ∉ ((envTriv.meta "C").merged).flatMap (mergedDesc envTriv 0)) ∧
    (propagate_column envTriv 1 stC5 "D" "C" = some stC5out) ∧
    ((propagate_column envTriv 1 stC5 "D" "C" =
      ((envTriv.meta "C").merged).foldl
        (fun acc mid => acc.bind (fun s => propagate_column envTriv 0 s "C" mid))
        (some (clearStats (replaceObservations (removeParentObs stC5 "C" "D") "C"
          (DFrame.concat (removeParentObservations dsC5C "D").observations
            (DFrame.addParentColumn (dsDFrame dsC5D) "D"))) "C"))) ∧
    stC5out.lookup "C" = some ⟨DFrame.concat (removeParentObservations dsC5C "D").observations
        (DFrame.addParentColumn (dsDFrame dsC5D) "D"), dsC5C.isReady, false⟩ ∧
    ((DFrame.concat (removeParentObservations dsC5C "D").observations
        (DFrame.addParentColumn (dsDFrame dsC5D) "D")).rows.filter
      (fun r => decide (rowVal r PARENT_COLUMN = Value.vStr "D"))) =
      (DFrame.addParentColumn (dsDFrame dsC5D) "D").rows) :=
  ⟨by decide, by decide, by decide, by decide, by decide,
   claim_C5 envTriv 0 stC5 stC5out "D" "C" dsC5C dsC5D
     (by decide) (by decide) (by decide) (by decide) (by decide)⟩

/-- C1 (code bug): the dataset is the left side of a join on column `a` and the
incoming row duplicates an existing value of `a`, yet `calculate_updates`
raises no `NonUniqueJoinError` and persists both rows — the Python 2 list
comprehension in `_check_update_is_valid` leaks its loop variable, so the
uniqueness check inspects the join column of the LAST `joined_datasets` tuple
(here `b`, from the right join) instead of the left join's column. -/
theorem claim_C1 :
    (⟨Direction.left, "r1", "a", "j1"⟩ ∈ (envC1.meta "d").joined) ∧
    (worldC1.store.lookup "d" = some dsC1) ∧
    ((dfCol rawC1 "a" ++ dfCol (dsDFrame dsC1) "a").length ≠
      nunique (dfCol rawC1 "a" ++ dfCol (dsDFrame dsC1) "a")) ∧
    ((calculate_updates envC1 "d" [] (some rawC1) none worldC1).2 = none) ∧
    (((calculate_updates envC1 "d" [] (some rawC1) none worldC1).1).store.lookup "d" =
      some ⟨⟨["a", "b"],
        [[("a", Value.vInt 1), ("b", Value.vInt 1)],
         [("a", Value.vInt 1), ("b", Value.vInt 2)]]⟩, true, false⟩) :=
  ⟨by decide, by decide, by decide, by decide, by decide⟩

theorem map_ne_of_mem_ne {α β : Type} (l : List α) (f g : α → β) (x : α)
    (hx : x ∈ l) (hne : f x ≠ g x) : l.map f ≠ l.map g := by
  intro he
  induction l with
  | nil => simp at hx
  | cons a t ih =>
    simp only [List.map_cons] at he
    injection he with h1 h2
    rcases List.mem_cons.mp hx with h | h
    · subst h
      exact hne h1
    · exact ih h h2

/-- C10: `_add_calcs_and_find_aggregations` joins a column computed with only
the FIRST compiled row function of a stored calculation, while `make_columns`
builds one column per compiled row function; for a formula compiling to two or
more row functions that disagree on some row, the two column sets differ. -/
theorem claim_C10 (env : Env) (selfCols : List String)
    (l2s : List (String × String)) (df : DFrame) (name formula : String)
    (ag : Option String) (f g : Row → Value) (fs : List (Row → Value))
    (hparse : env.parse formula = (ag, f :: g :: fs))
    (hname : name ∈ selfCols)
    (hjoin : name ∉ df.columns) :
    ((make_columns env df formula name).2 =
      (f :: g :: fs).map (fun h => (name, df.rows.map h))) ∧
    ((make_columns env df formula name).2.length = (f :: g :: fs).length) ∧
    (add_calcs_and_find_aggregations env selfCols l2s [⟨name, formula⟩] df =
      some (⟨df.columns ++ [name],
        df.rows.map (fun r => r ++ [(name, f r)])⟩, [])) ∧
    (∀ r ∈ df.rows, f r ≠ g r → df.rows.map f ≠ df.rows.map g) := by
  refine ⟨?_, ?_, ?_, ?_⟩
  · simp [make_columns, hparse]
  · simp [make_columns, hparse]
  · simp only [add_calcs_and_find_aggregations, List.foldl_cons, List.foldl_nil,
      Option.some_bind, hparse]
    rw [if_pos hname, DFrame.join, if_neg hjoin]
    rw [zip_map_appendRow]
    rfl
  · intro r hr hne
    exact map_ne_of_mem_ne df.rows f g r hr hne

theorem claim_C10_witness :
    (envC10.parse "two" = (none, [fun _ => Value.vInt 1, fun _ => Value.vInt 2])) ∧
    (("n" : String) ∈ ["n"]) ∧
    (("n" : String) ∉ (⟨["m"], [[("m", Value.vInt 0)]]⟩ : DFrame).columns) ∧
    (((make_columns envC10 ⟨["m"], [[("m", Value.vInt 0)]]⟩ "two" "n").2 =
      ([fun _ => Value.vInt 1, fun _ => Value.vInt 2]).map
        (fun h => ("n", (⟨["m"], [[("m", Value.vInt 0)]]⟩ : DFrame).rows.map h))) ∧
     ((make_columns envC10 ⟨["m"], [[("m", Value.vInt 0)]]⟩ "two" "n").2.length =
      ([fun (_ : Row) => Value.vInt 1, fun _ => Value.vInt 2]).length) ∧
     (add_calcs_and_find_aggregations envC10 ["n"] [] [⟨"n", "two"⟩]
        ⟨["m"], [[("m", Value.vInt 0)]]⟩ =
      some (⟨["m"] ++ ["n"],
        (⟨["m"], [[("m", Value.vInt 0)]]⟩ : DFrame).rows.map
          (fun r => r ++ [("n", (fun _ => Value.vInt 1) r)])⟩, [])) ∧
     (∀ r ∈ (⟨["m"], [[("m", Value.vInt 0)]]⟩ : DFrame).rows,
        (fun (_ : Row) => Value.vInt 1) r ≠ (fun _ => Value.vInt 2) r →
        (⟨["m"], [[("m", Value.vInt 0)]]⟩ : DFrame).rows.map (fun _ => Value.vInt 1) ≠
        (⟨["m"], [[("m", Value.vInt 0)]]⟩ : DFrame).rows.map (fun _ => Value.vInt 2))) :=
  ⟨rfl, by decide, by decide,
   claim_C10 envC10 ["n"] [] ⟨["m"], [[("m", Value.vInt 0)]]⟩ "n" "two" none
     (fun _ => Value.vInt 1) (fun _ => Value.vInt 2) [] rfl (by decide) (by decide)⟩

theorem slugify_fold_preserves (l2s : List (String × String)) (x : String) :
    ∀ (l : List (String × Value)) (acc : Row),
      (∀ p ∈ l, p.1 ≠ x ∧ slugRes l2s p.1 ≠ x) →
      ((l.foldl
        (fun acc kv =>
          match truthySlug l2s kv.1 with
          | some s =>
            if kv.1 ∉ MONGO_RESERVED_KEYS then rowInsert (rowErase acc kv.1) s kv.2
            else acc
          | none => acc) acc).lookup x = acc.lookup x) := by
  intro l
  induction l with
  | nil => intro acc _; rfl
  | cons p t ih =>
    intro acc hl
    have hp := hl p (List.mem_cons_self _ _)
    have ht : ∀ q ∈ t, q.1 ≠ x ∧ slugRes l2s q.1 ≠ x :=
      fun q hq => hl q (List.mem_cons_of_mem _ hq)
    rw [List.foldl_cons]
    cases hts : truthySlug l2s p.1 with
    | none =>
      simp only [hts]
      exact ih _ ht
    | some s =>
      simp only [hts]
      by_cases hres : p.1 ∈ MONGO_RESERVED_KEYS
      · rw [if_neg (fun hr => hr hres)]
        exact ih _ ht
      · rw [if_pos hres]
        rw [ih _ ht]
        have hsx : s ≠ x := by
          have : slugRes l2s p.1 = s := by
            simp [slugRes, hts, hres]
          exact this ▸ hp.2
        rw [rowInsert_lookup_ne _ _ _ _ (fun he => hsx he.symm),
          rowErase_lookup_ne _ _ _ (fun he => hp.1 he.symm)]

theorem merged_dispatch_foldl_calls (d : String) (slug : List Row) :
    ∀ (l : List String) (w : World),
      (l.foldl (merged_dispatch_step d slug) w).asyncCalls =
        w.asyncCalls ++ l.map (fun m => ⟨m, slug, some d⟩) := by
  intro l
  induction l with
  | nil => intro w; simp
  | cons m t ih =>
    intro w
    rw [List.foldl_cons, ih]
    simp [merged_dispatch_step, List.append_assoc]

/-- C9: `_update_merged_datasets` rewrites the caller's `new_data` rows in
place — every non-reserved key with a truthy slug is deleted and re-inserted
under its slug, so the rows end up changed — and the rows dispatched to the
merged children are exactly these slugified rows. -/
theorem claim_C9 (env : Env) (d : String) (newData : List Row) (w : World)
    (row : Row) (k s : String) (v : Value)
    (hrow : row ∈ newData) (hkv : (k, v) ∈ row)
    (hs : (labelsToSlugs (env.meta d)).lookup k = some s)
    (hstr : s ≠ "") (hres : k ∉ MONGO_RESERVED_KEYS) (hks : k ≠ s)
    (hnd : (row.map Prod.fst).Nodup)
    (hfresh : ∀ p ∈ row, slugRes (labelsToSlugs (env.meta d)) p.1 = p.1 ∨
      slugRes (labelsToSlugs (env.meta d)) p.1 ∉ row.map Prod.fst)
    (hinj : (row.map (fun p => slugRes (labelsToSlugs (env.meta d)) p.1)).Nodup) :
    ((slugifyRow (labelsToSlugs (env.meta d)) row).lookup k = none) ∧
    ((slugifyRow (labelsToSlugs (env.meta d)) row).lookup s = some v) ∧
    (slugifyRow (labelsToSlugs (env.meta d)) row ≠ row) ∧
    ((update_merged_datasets env d newData w).asyncCalls =
      w.asyncCalls ++ ((env.meta d).merged).map
        (fun m => ⟨m, newData.map (slugifyRow (labelsToSlugs (env.meta d))), some d⟩)) := by
  set l2s := labelsToSlugs (env.meta d) with hl2s
  have hsr : slugRes l2s k = s := by
    simp [slugRes, truthySlug, hs, hstr, hres]
  obtain ⟨l1, l2, hsplit⟩ := List.append_of_mem hkv
  -- the keys of the tail after the rewritten key
  have hknotl2 : k ∉ l2.map Prod.fst := by
    intro hmem
    rw [hsplit, List.map_append, List.map_cons] at hnd
    have := List.Nodup.of_append_right hnd
    exact (List.nodup_cons.mp this).1 hmem
  have hsnotrow : s ∉ row.map Prod.fst := by
    rcases hfresh (k, v) hkv with h | h
    · exact absurd (hsr.symm.trans h).symm hks
    · exact hsr ▸ h
  have hsnotl2 : ∀ q ∈ l2, slugRes l2s q.1 ≠ s := by
    intro q hq
    rw [hsplit, List.map_append, List.map_cons, hsr] at hinj
    have := List.Nodup.of_append_right hinj
    have hns := (List.nodup_cons.mp this).1
    intro he
    exact hns (he ▸ List.mem_map_of_mem (fun p => slugRes l2s p.1) hq)
  have hcond_s : ∀ q ∈ l2, q.1 ≠ s ∧ slugRes l2s q.1 ≠ s := by
    intro q hq
    refine ⟨?_, hsnotl2 q hq⟩
    intro he
    apply hsnotrow
    rw [hsplit]
    rw [← he]
    exact List.mem_map_of_mem Prod.fst (List.mem_append.mpr (Or.inr (List.mem_cons_of_mem _ hq)))
  have hcond_k : ∀ q ∈ l2, q.1 ≠ k ∧ slugRes l2s q.1 ≠ k := by
    intro q hq
    constructor
    · intro he
      exact hknotl2 (he ▸ List.mem_map_of_mem Prod.fst hq)
    · rcases hfresh q (by
        rw [hsplit]
        exact List.mem_append.mpr (Or.inr (List.mem_cons_of_mem _ hq))) with h | h
      · rw [h]
        intro he
        exact hknotl2 (he ▸ List.mem_map_of_mem Prod.fst hq)
      · intro he
        apply h
        rw [he, hsplit]
        exact List.mem_map_of_mem Prod.fst (List.mem_append.mpr (Or.inr (List.mem_cons_self _ _)))
  have hstep : slugifyRow l2s row =
      l2.foldl
        (fun acc kv =>
          match truthySlug l2s kv.1 with
          | some s2 =>
            if kv.1 ∉ MONGO_RESERVED_KEYS then rowInsert (rowErase acc kv.1) s2 kv.2
            else acc
          | none => acc)
        (rowInsert (rowErase (List.foldl
          (fun acc kv =>
            match truthySlug l2s kv.1 with
            | some s2 =>
              if kv.1 ∉ MONGO_RESERVED_KEYS then rowInsert (rowErase acc kv.1) s2 kv.2
              else acc
            | none => acc) (l1 ++ (k, v) :: l2) l1) k) s v) := by
    have hts : truthySlug l2s k = some s := by
      simp [truthySlug, hs, hstr]
    rw [slugifyRow, hsplit, List.foldl_append, List.foldl_cons]
    congr 1
    simp only [hts]
    rw [if_pos hres]
  refine ⟨?_, ?_, ?_, ?_⟩
  · rw [hstep, slugify_fold_preserves l2s k l2 _ hcond_k,
      rowInsert_lookup_ne _ _ _ _ hks, rowErase_lookup_self]
  · rw [hstep, slugify_fold_preserves l2s s l2 _ hcond_s, rowInsert_lookup_self]
  · intro he
    have h1 : (slugifyRow l2s row).lookup k = none := by
      rw [hstep, slugify_fold_preserves l2s k l2 _ hcond_k,
        rowInsert_lookup_ne _ _ _ _ hks, rowErase_lookup_self]
    rw [he] at h1
    rw [lookup_eq_some_of_mem row k v hnd hkv] at h1
    exact absurd h1 (by simp)
  · rw [update_merged_datasets]
    exact merged_dispatch_foldl_calls d _ _ w

theorem claim_C9_witness :
    (rowC9 ∈ [rowC9]) ∧
    (("A", Value.vInt 1) ∈ rowC9) ∧
    ((labelsToSlugs (envC9.meta "d")).lookup "A" = some "a") ∧
    (("a" : String) ≠ "") ∧
    (("A" : String) ∉ MONGO_RESERVED_KEYS) ∧
    (("A" : String) ≠ "a") ∧
    ((rowC9.map Prod.fst).Nodup) ∧
    (∀ p ∈ rowC9, slugRes (labelsToSlugs (envC9.meta "d")) p.1 = p.1 ∨
      slugRes (labelsToSlugs (envC9.meta "d")) p.1 ∉ rowC9.map Prod.fst) ∧
    ((rowC9.map (fun p => slugRes (labelsToSlugs (envC9.meta "d")) p.1)).Nodup) ∧
    (((slugifyRow (labelsToSlugs (envC9.meta "d")) rowC9).lookup "A" = none) ∧
     ((slugifyRow (labelsToSlugs (envC9.meta "d")) rowC9).lookup "a" =
        some (Value.vInt 1)) ∧
     (slugifyRow (labelsToSlugs (envC9.meta "d")) rowC9 ≠ rowC9) ∧
     ((update_merged_datasets envC9 "d" [rowC9] worldC9).asyncCalls =
       worldC9.asyncCalls ++ ((envC9.meta "d").merged).map
         (fun m => ⟨m, [rowC9].map (slugifyRow (labelsToSlugs (envC9.meta "d"))), some "d"⟩))) :=
  ⟨by decide, by decide, by decide, by decide, by decide, by decide, by decide,
   by decide, by decide,
   claim_C9 envC9 "d" [rowC9] worldC9 rowC9 "A" "a" (Value.vInt 1)
     (by decide) (by decide) (by decide) (by decide) (by decide) (by decide)
     (by decide) (by decide) (by decide)⟩

/-- C7 counterexample: the schema is non-empty and knows column `B` (label of
slug `b`), yet `dframe_from_update` on a table whose columns do not include
`b` drops the column entirely — the bootstrap case is triggered by the current
TABLE having no columns, not by the schema being empty, and outside it a
column is kept only when its slug is among the current table's columns. -/
theorem claim_C7_counterexample :
    ((envC7.meta "d").schemaCols ≠ []) ∧
    (("B", "b") ∈ labelsToSlugs (envC7.meta "d")) ∧
    (dframe_from_update envC7 "d" ⟨["a"], [[("a", Value.vInt 1)]]⟩
        [[("B", Value.vInt 1)]] = ⟨[], [[]]⟩) :=
  ⟨by decide, by decide, by decide⟩

theorem lookup_mem {β : Type} (l : List (String × β)) (k : String) (v : β)
    (h : l.lookup k = some v) : (k, v) ∈ l := by
  induction l with
  | nil => simp [List.lookup] at h
  | cons p t ih =>
    by_cases hk : k = p.1
    · subst hk
      rw [← p.eta, lookup_cons_self] at h
      injection h with h
      rw [← p.eta, ← h]
      exact List.mem_cons_self _ _
    · rw [← p.eta, lookup_cons_ne _ _ _ _ hk] at h
      exact List.mem_cons_of_mem _ (ih h)

theorem rowInsert_eq_append (r : Row) (k : String) (v : Value)
    (h : r.lookup k = none) : rowInsert r k v = r ++ [(k, v)] := by
  unfold rowInsert
  rw [if_neg]
  rw [h]
  simp

theorem filterRow_eq_filterMap (m : DatasetMeta) (l2s : List (String × String))
    (columns : List String) (dframeEmpty : Bool)
    (hne : ∀ col s, pyGetSlug l2s col = some s → s ≠ "") :
    ∀ (row : List (String × Value)) (acc : Row),
      ((row.map (fun kv => updateKey l2s kv.1)).Nodup) →
      (∀ kv ∈ row, updateKey l2s kv.1 ∉ acc.map Prod.fst) →
      row.foldl
        (fun acc kv =>
          if kv.1 ∈ MONGO_RESERVED_KEYS then
            if (columns.isEmpty ∨ kv.1 ∈ columns) ∧ (acc.lookup kv.1).isNone then
              acc ++ [kv]
            else acc
          else
            match pyGetSlug l2s kv.1 with
            | some slug =>
              if (slug ≠ "" ∨ (l2s.lookup kv.1).isSome) ∧ (dframeEmpty ∨ slug ∈ columns)
              then rowInsert acc slug (m.convert slug kv.2)
              else acc
            | none => acc) acc =
      acc ++ row.filterMap (fun kv =>
        if kv.1 ∈ MONGO_RESERVED_KEYS then
          if columns.isEmpty ∨ kv.1 ∈ columns then some kv else none
        else
          match pyGetSlug l2s kv.1 with
          | some s =>
            if (dframeEmpty : Prop) ∨ s ∈ columns then some (s, m.convert s kv.2) else none
          | none => none) := by
  intro row
  induction row with
  | nil =>
    intro acc _ _
    simp
  | cons kv t ih =>
    intro acc hnd hfr
    rw [List.foldl_cons, List.filterMap_cons]
    simp only [List.map_cons, List.nodup_cons] at hnd
    have hfrkv := hfr kv (List.mem_cons_self _ _)
    have hfrt : ∀ q ∈ t, updateKey l2s q.1 ∉ acc.map Prod.fst :=
      fun q hq => hfr q (List.mem_cons_of_mem _ hq)
    by_cases hresv : kv.1 ∈ MONGO_RESERVED_KEYS
    · rw [if_pos hresv, if_pos hresv]
      have hkey : updateKey l2s kv.1 = kv.1 := by
        unfold updateKey
        rw [if_pos hresv]
      have hlook : (acc.lookup kv.1).isNone = true := by
        rw [lookup_eq_none_of_not_mem_keys _ _ (hkey ▸ hfrkv)]
        rfl
      by_cases hcond : columns.isEmpty ∨ kv.1 ∈ columns
      · rw [if_pos ⟨hcond, hlook⟩, if_pos hcond]
        rw [ih (acc ++ [kv]) hnd.2 ?fresh]
        · rw [List.append_assoc]
          rfl
        case fresh =>
          intro q hq
          rw [List.map_append]
          intro hmem
          rcases List.mem_append.mp hmem with h | h
          · exact hfrt q hq h
          · simp only [List.map_cons, List.map_nil, List.mem_singleton] at h
            apply hnd.1
            rw [hkey, ← h]
            exact List.mem_map_of_mem _ hq
      · rw [if_neg (fun hc => hcond hc.1), if_neg hcond]
        exact ih acc hnd.2 hfrt
    · rw [if_neg hresv, if_neg hresv]
      cases hps : pyGetSlug l2s kv.1 with
      | none =>
        simp only [hps]
        exact ih acc hnd.2 hfrt
      | some s =>
        simp only [hps]
        have hkey : updateKey l2s kv.1 = s := by
          unfold updateKey
          rw [if_neg hresv, hps]
          rfl
        have hs : s ≠ "" := hne kv.1 s hps
        by_cases hcond : (dframeEmpty : Prop) ∨ s ∈ columns
        · rw [if_pos ⟨Or.inl hs, hcond⟩, if_pos hcond]
          rw [rowInsert_eq_append _ _ _
            (lookup_eq_none_of_not_mem_keys _ _ (hkey ▸ hfrkv))]
          rw [ih (acc ++ [(s, m.convert s kv.2)]) hnd.2 ?fresh2]
          · rw [List.append_assoc]
            rfl
          case fresh2 =>
            intro q hq
            rw [List.map_append]
            intro hmem
            rcases List.mem_append.mp hmem with h | h
            · exact hfrt q hq h
            · simp only [List.map_cons, List.map_nil, List.mem_singleton] at h
              apply hnd.1
              rw [hkey, ← h]
              exact List.mem_map_of_mem _ hq
        · rw [if_neg (fun hc => hcond hc.2), if_neg hcond]
          exact ih acc hnd.2 hfrt

/-- C7 as amended: `dframe_from_update` converts the rows exactly as the
amended claim describes (labels translated to slugs, per-column conversion,
columns kept only when their slug is among the current table's columns, with
the bootstrap case keyed on the table having no columns), provided no schema
slug is empty and no two keys of a row collide on their stored key. -/
theorem claim_C7_amended (env : Env) (d : String) (selfDF : DFrame)
    (newData : List Row)
    (hslug : ∀ c ∈ (env.meta d).schemaCols, c.slug ≠ "")
    (hkeys : ∀ row ∈ newData,
      (row.map (fun kv => updateKey (labelsToSlugs (env.meta d)) kv.1)).Nodup) :
    dframe_from_update env d selfDF newData =
      dframeFromUpdateAmended env d selfDF newData := by
  have hne : ∀ col s,
      pyGetSlug (labelsToSlugs (env.meta d)) col = some s → s ≠ "" := by
    intro col s hps
    unfold pyGetSlug at hps
    cases hl : (labelsToSlugs (env.meta d)).lookup col with
    | some s2 =>
      simp only [hl] at hps
      injection hps with hps
      subst hps
      have hmem := lookup_mem _ _ _ hl
      rcases List.mem_map.mp hmem with ⟨c, hc, he⟩
      have h2 : s2 = c.slug := by
        have := congrArg Prod.snd he
        simpa using this.symm
      rw [h2]
      exact hslug c hc
    | none =>
      simp only [hl] at hps
      split at hps
      · injection hps with hps
        rename_i hany
        rcases List.any_eq_true.mp hany with ⟨p, hp, hpe⟩
        simp only [decide_eq_true_eq] at hpe
        rcases List.mem_map.mp hp with ⟨c, hc, he⟩
        subst hps
        rw [← hpe]
        have h2 : p.2 = c.slug := by
          have := congrArg Prod.snd he
          simpa using this.symm
        rw [h2]
        exact hslug c hc
      · exact absurd hps (by simp)
  have hrows : newData.map (filterRowFromUpdate (env.meta d)
      (labelsToSlugs (env.meta d))
      (if selfDF.columns.isEmpty then schemaKeys (env.meta d) else selfDF.columns)
      selfDF.columns.isEmpty) =
    newData.map (fun row => row.filterMap (fun kv =>
      if kv.1 ∈ MONGO_RESERVED_KEYS then
        if (if selfDF.columns.isEmpty then schemaKeys (env.meta d)
            else selfDF.columns).isEmpty ∨
           kv.1 ∈ (if selfDF.columns.isEmpty then schemaKeys (env.meta d)
            else selfDF.columns) then some kv else none
      else
        match pyGetSlug (labelsToSlugs (env.meta d)) kv.1 with
        | some s =>
          if selfDF.columns.isEmpty ∨
             s ∈ (if selfDF.columns.isEmpty then schemaKeys (env.meta d)
              else selfDF.columns) then
            some (s, (env.meta d).convert s kv.2)
          else none
        | none => none)) := by
    apply List.map_congr_left
    intro row hrow
    unfold filterRowFromUpdate
    have := filterRow_eq_filterMap (env.meta d) (labelsToSlugs (env.meta d))
      (if selfDF.columns.isEmpty then schemaKeys (env.meta d) else selfDF.columns)
      selfDF.columns.isEmpty hne row [] (hkeys row hrow) (by simp)
    rw [this, List.nil_append]
  simp only [dframe_from_update, dframeFromUpdateAmended]
  rw [hrows]

theorem claim_C7_amended_witness :
    (∀ c ∈ (envC7.meta "d").schemaCols, c.slug ≠ "") ∧
    (∀ row ∈ [[("A", Value.vInt 5), ("b", Value.vInt 6)]],
      (row.map (fun kv => updateKey (labelsToSlugs (envC7.meta "d")) kv.1)).Nodup) ∧
    (dframe_from_update envC7 "d" ⟨["a", "b"], []⟩
        [[("A", Value.vInt 5), ("b", Value.vInt 6)]] =
      dframeFromUpdateAmended envC7 "d" ⟨["a", "b"], []⟩
        [[("A", Value.vInt 5), ("b", Value.vInt 6)]]) :=
  ⟨by decide, by decide,
   claim_C7_amended envC7 "d" ⟨["a", "b"], []⟩ _ (by decide) (by decide)⟩

/-- C8 counterexample: the updated dataset is the right side of a join on `k`
and the new rows lack column `k`;  the rows dispatched to the join-result
dataset are the raw rows, not the rows joined eagerly against the other
dataset (which differ here), so the claim's unconditional "joined eagerly"
fails. -/
theorem claim_C8_counterexample :
    ((envC8.meta "d").joined = [⟨Direction.right, "o", "k", "j"⟩]) ∧
    ((calculate_updates envC8 "d" [] (some rawC8) none worldC8).2 = none) ∧
    (((calculate_updates envC8 "d" [] (some rawC8) none worldC8).1).asyncCalls =
      [⟨"j", [[("x", Value.vInt 5)]], some "d"⟩]) ∧
    ((join_dataset rawC8 (dsDFrame dsC8o) "k").rows ≠ [[("x", Value.vInt 5)]]) :=
  ⟨rfl, by decide, by decide, by decide⟩

/-- C8 as amended: for a dataset with one joined-datasets entry, a left-side
join is recomputed and persisted synchronously exactly when the join column
appears in the new rows and its new values intersect the other side's current
values (and nothing is dispatched); a right-side join dispatches the new rows
asynchronously to the join-result dataset, joined eagerly against the other
dataset when the join column appears among the new rows' columns and as they
are otherwise. -/
theorem claim_C8_amended (env : Env) (d : String) (raw : DFrame) (w : World)
    (j : JoinSpec) (oDS sDS : DState)
    (hj : (env.meta d).joined = [j])
    (ho : w.store.lookup j.other = some oDS)
    (hd : w.store.lookup d = some sDS) :
    (j.dir = Direction.left →
      ((update_joined_datasets env d raw w).asyncCalls = w.asyncCalls) ∧
      ((j.onCol ∈ raw.columns ∧
          ((dfCol raw j.onCol).any (fun v =>
            (dfCol (dsDFramePadded (env.meta j.other) oDS) j.onCol).contains v)) = true) →
        (update_joined_datasets env d raw w).store =
          replaceObservations w.store j.result
            (join_dataset (dsDFramePadded (env.meta j.other) oDS) (dsDFrame sDS)
              j.onCol)) ∧
      (¬ (j.onCol ∈ raw.columns ∧
          ((dfCol raw j.onCol).any (fun v =>
            (dfCol (dsDFramePadded (env.meta j.other) oDS) j.onCol).contains v)) = true) →
        (update_joined_datasets env d raw w).store = w.store)) ∧
    (j.dir = Direction.right →
      ((update_joined_datasets env d raw w).store = w.store) ∧
      ((update_joined_datasets env d raw w).asyncCalls = w.asyncCalls ++
        [⟨j.result,
          (if j.onCol ∈ raw.columns then join_dataset raw (dsDFrame oDS) j.onCol
           else raw).rows,
          some d⟩])) := by
  unfold update_joined_datasets
  rw [hj, List.foldl_cons, List.foldl_nil]
  unfold update_joined_one
  constructor
  · intro hdir
    rw [hdir]
    dsimp only
    refine ⟨?_, ?_, ?_⟩
    · by_cases hcol : j.onCol ∈ raw.columns
      · rw [if_pos hcol, ho, hd]
        dsimp only
        split
        · rfl
        · rfl
      · rw [if_neg hcol]
    · intro hcond
      rw [if_pos hcond.1, ho, hd]
      dsimp only
      rw [if_pos hcond.2]
    · intro hcond
      by_cases hcol : j.onCol ∈ raw.columns
      · rw [if_pos hcol, ho, hd]
        dsimp only
        rw [if_neg (fun ha => hcond ⟨hcol, ha⟩)]
      · rw [if_neg hcol]
  · intro hdir
    rw [hdir]
    dsimp only
    by_cases hcol : j.onCol ∈ raw.columns
    · rw [if_pos hcol, ho]
      dsimp only
      rw [if_pos hcol]
      exact ⟨rfl, rfl⟩
    · rw [if_neg hcol, if_neg hcol]
      exact ⟨rfl, rfl⟩

theorem claim_C8_amended_witness :
    ((envC8.meta "d").joined = [⟨Direction.right, "o", "k", "j"⟩]) ∧
    (worldC8.store.lookup "o" = some dsC8o) ∧
    (worldC8.store.lookup "d" = some ⟨⟨["x"], []⟩, true, false⟩) ∧
    ((JoinSpec.mk Direction.right "o" "k" "j").dir = Direction.right →
      ((update_joined_datasets envC8 "d" rawC8 worldC8).store = worldC8.store) ∧
      ((update_joined_datasets envC8 "d" rawC8 worldC8).asyncCalls =
        worldC8.asyncCalls ++
        [⟨"j", (if ("k" : String) ∈ rawC8.columns
            then join_dataset rawC8 (dsDFrame dsC8o) "k" else rawC8).rows,
          some "d"⟩])) :=
  ⟨rfl, by decide, by decide,
   (claim_C8_amended envC8 "d" rawC8 worldC8 ⟨Direction.right, "o", "k", "j"⟩
     dsC8o ⟨⟨["x"], []⟩, true, false⟩ rfl (by decide) (by decide)).2⟩

end Bamboo
